import Mathlib

/-!
# Tenant repository over MySQL (`pkg/authz/tenant/mysql.go`)

A shallow embedding of `MySQLRepository`: the statement text and the bound
parameters that `List` builds, the single-row operations, and a model of the
table the statements run against.  The store is the persistence backend of the
specification (parameterized statements with `?` placeholders, standard
comparison semantics for NULLs and strings).
-/

/-! ## Values and their comparison -/

/-- A value bound to a `?` placeholder or held in a column: the Go `interface{}`
values the repository passes are integers (limit, timestamps, ids) or strings. -/
inductive Value where
  | int (n : Int)
  | str (s : String)
  deriving DecidableEq, Repr

/-- Embedding of values into a linear order: integers by magnitude, strings
code point by code point (binary collation), integers before strings when two
values of different kinds meet (the coercion rules of the store for mixed
kinds are not modelled; no statement of the repository compares a column with
a value of another kind when the cursor is taken from a row). -/
def Value.rank : Value → Lex (Int ⊕ String)
  | .int n => toLex (Sum.inl n)
  | .str s => toLex (Sum.inr s)

instance : LinearOrder Value :=
  LinearOrder.lift' Value.rank (by
    intro a b h
    cases a <;> cases b <;> simp [Value.rank] at h <;> simp [h])

/-- Executable `<` on values. -/
def Value.ltb : Value → Value → Bool
  | .int a, .int b => decide (a < b)
  | .int _, .str _ => true
  | .str _, .int _ => false
  | .str a, .str b => decide (a.data < b.data)

/-- SQL truth values: `none` is UNKNOWN. -/
abbrev Tri := Option Bool

/-- SQL `AND` (Kleene). -/
def Tri.and : Tri → Tri → Tri
  | some false, _ => some false
  | _, some false => some false
  | some true, some true => some true
  | _, _ => none

/-- SQL `OR` (Kleene). -/
def Tri.or : Tri → Tri → Tri
  | some true, _ => some true
  | _, some true => some true
  | some false, some false => some false
  | _, _ => none

/-! ## The tenant table -/

/-- Modelled from the spec: the `Tenant` row type, declared outside `src/`.
The fields are the columns of the SELECT list of `mysql.go`; `name` and
`deletedAt` are nullable (§3: optional label, nullable timestamp), times are
counted in microseconds. -/
structure Tenant where
  id : Int
  objectId : String
  tenantId : String
  name : Option String
  createdAt : Int
  updatedAt : Int
  deletedAt : Option Int
  deriving DecidableEq, Repr

/-- The table: every row, live or soft-deleted. -/
abbrev Tenants := List Tenant

/-- The columns of table `tenant`. -/
def tenantColumns : List String :=
  ["id", "objectId", "tenantId", "name", "createdAt", "updatedAt", "deletedAt"]

/-- The value of the field with exactly this name; `none` is SQL NULL. -/
def Tenant.field (t : Tenant) (col : String) : Option Value :=
  if col = "id" then some (.int t.id)
  else if col = "objectId" then some (.str t.objectId)
  else if col = "tenantId" then some (.str t.tenantId)
  else if col = "name" then t.name.map Value.str
  else if col = "createdAt" then some (.int t.createdAt)
  else if col = "updatedAt" then some (.int t.updatedAt)
  else if col = "deletedAt" then t.deletedAt.map Value.int
  else none

/-- A word in lower case. -/
def lowerWord (w : List Char) : List Char := w.map Char.toLower

/-- The column a word names: the store reads column names in any letter case. -/
def columnNamed (w : List Char) : Option String :=
  tenantColumns.find? (fun col => decide (lowerWord col.data = lowerWord w))

/-- The text names a column of the table. -/
def isColumn (col : String) : Bool := (columnNamed col.data).isSome

/-- The value of a column in a row; `none` is SQL NULL (also for a text that
names no column, which the store rejects before any row is read). -/
def Tenant.column (t : Tenant) (col : String) : Option Value :=
  match columnNamed col.data with
  | some c => t.field c
  | none => none

/-- A row is live when `deletedAt IS NULL`. -/
def Tenant.live (t : Tenant) : Bool := t.deletedAt.isNone

/-! ## LIKE patterns -/

/-- A token of a LIKE pattern. -/
inductive LikeTok where
  | any
  | one
  | lit (c : Char)
  deriving DecidableEq, Repr

/-- Reading of a LIKE pattern: `%` is any run of characters, `_` any single
character, a backslash makes the next character literal. -/
def likeTokens : List Char → List LikeTok
  | [] => []
  | c :: p =>
    if c = '\\' then
      match p with
      | [] => [.lit c]
      | e :: q => .lit e :: likeTokens q
    else if c = '%' then .any :: likeTokens p
    else if c = '_' then .one :: likeTokens p
    else .lit c :: likeTokens p

/-- Whether `f` accepts some suffix of the string. -/
def anySuffix (f : List Char → Bool) : List Char → Bool
  | [] => f []
  | c :: s => f (c :: s) || anySuffix f s

/-- Matching of a tokenised LIKE pattern against a whole string. -/
def likeMatch : List LikeTok → List Char → Bool
  | [], s => s.isEmpty
  | .any :: ts, s => anySuffix (likeMatch ts) s
  | .one :: ts, s =>
    match s with
    | [] => false
    | _ :: r => likeMatch ts r
  | .lit c :: ts, s =>
    match s with
    | [] => false
    | d :: r => decide (c = d) && likeMatch ts r

/-- The SQL operator `s LIKE pat`. -/
def sqlLike (s pat : String) : Bool := likeMatch (likeTokens pat.data) s.data

/-! ## Statements -/

/-- Comparison operators of the statements. -/
inductive CmpOp where
  | gt
  | lt
  | eq
  deriving DecidableEq, Repr

/-- The text of an operator. -/
def CmpOp.text : CmpOp → String
  | .gt => ">"
  | .lt => "<"
  | .eq => "="

/-- The comparison an operator stands for. -/
def CmpOp.holds : CmpOp → Value → Value → Bool
  | .gt, a, b => Value.ltb b a
  | .lt, a, b => Value.ltb a b
  | .eq, a, b => decide (a = b)

/-- A condition of a WHERE clause, each `?` paired with the parameter bound to it. -/
inductive Cond where
  | cmp (col : String) (op : CmpOp) (arg : Value)
  | like (col : String) (arg : Value)
  | and (a b : Cond)
  | or (a b : Cond)
  | paren (c : Cond)
  deriving Repr

/-- The SQL text of a condition. -/
def Cond.text : Cond → String
  | .cmp col op _ => col ++ " " ++ op.text ++ " ?"
  | .like col _ => col ++ " LIKE ?"
  | .and a b => a.text ++ " AND " ++ b.text
  | .or a b => a.text ++ " OR " ++ b.text
  | .paren c => "(" ++ c.text ++ ")"

/-- The parameters of a condition, in the order of its placeholders. -/
def Cond.args : Cond → List Value
  | .cmp _ _ arg => [arg]
  | .like _ arg => [arg]
  | .and a b => a.args ++ b.args
  | .or a b => a.args ++ b.args
  | .paren c => c.args

/-- The columns a condition names. -/
def Cond.columns : Cond → List String
  | .cmp col _ _ => [col]
  | .like col _ => [col]
  | .and a b => a.columns ++ b.columns
  | .or a b => a.columns ++ b.columns
  | .paren c => c.columns

/-- Truth value of a condition on a row: a comparison with NULL is UNKNOWN. -/
def Cond.eval (t : Tenant) : Cond → Tri
  | .cmp col op arg =>
    match t.column col with
    | some v => some (op.holds v arg)
    | none => none
  | .like col arg =>
    match t.column col, arg with
    | some (.str s), .str pat => some (sqlLike s pat)
    | _, _ => none
  | .and a b => Tri.and (a.eval t) (b.eval t)
  | .or a b => Tri.or (a.eval t) (b.eval t)
  | .paren c => c.eval t

/-- The statement `SELECT ... FROM tenant WHERE deletedAt IS NULL AND c1 AND ...
ORDER BY k1 d1, ... LIMIT ?`. -/
structure Select where
  conds : List Cond
  orderBy : List (String × String)
  limit : Value
  deriving Repr

/-- The head of the statement of `List`, up to `deletedAt IS NULL`. -/
def selectHead : String :=
  "\n\t\tSELECT id, objectId, tenantId, name, createdAt, updatedAt, deletedAt\n\t\tFROM tenant\n\t\tWHERE\n\t\t\tdeletedAt IS NULL\n\n\t"

/-- The text of the conjuncts after the head. -/
def condsText : List Cond → String
  | [] => ""
  | c :: cs => " AND " ++ c.text ++ condsText cs

/-- The text of the sort keys. -/
def keysText : List (String × String) → String
  | [] => ""
  | [(col, dir)] => col ++ " " ++ dir
  | (col, dir) :: ks => col ++ " " ++ dir ++ ", " ++ keysText ks

/-- The SQL text of a statement. -/
def Select.text (q : Select) : String :=
  selectHead ++ condsText q.conds ++ " ORDER BY " ++ keysText q.orderBy ++ " LIMIT ?"

/-- The parameters of a statement, in the order of its placeholders. -/
def Select.args (q : Select) : List Value :=
  (q.conds.map Cond.args).flatten ++ [q.limit]

/-! ## The store -/

/-- Errors of the driver: `sql.ErrNoRows` and every other failure. -/
inductive DbErr where
  | errNoRows
  | failure (msg : String)
  deriving DecidableEq, Repr

/-- Direction of a sort key. -/
inductive Dir where
  | asc
  | desc
  deriving DecidableEq, Repr

/-- The pieces of a text between the characters `f` marks, in order. -/
def splitBy (f : Char → Bool) : List Char → List (List Char)
  | [] => [[]]
  | c :: cs =>
    if f c then [] :: splitBy f cs
    else
      match splitBy f cs with
      | [] => [[c]]
      | w :: ws => (c :: w) :: ws

/-- White space between the words of a statement. -/
def isBlank (c : Char) : Bool := c = ' ' || c = '\t' || c = '\n'

/-- The words of a piece of statement text. -/
def sqlWords (cs : List Char) : List (List Char) :=
  (splitBy isBlank cs).filter (fun w => !w.isEmpty)

/-- The direction keyword after a sort expression, in any letter case. -/
def readDir (w : List Char) : Option Dir :=
  if lowerWord w = "asc".data then some .asc
  else if lowerWord w = "desc".data then some .desc
  else none

/-- The value of a run of decimal digits. -/
def readDigits : List Char → Nat → Option Nat
  | [], acc => some acc
  | c :: cs, acc =>
    if '0' ≤ c ∧ c ≤ '9' then readDigits cs (acc * 10 + (c.toNat - '0'.toNat)) else none

/-- A position in the select list, written as a number. -/
def readOrdinal (w : List Char) : Option Nat :=
  match w with
  | [] => none
  | _ :: _ => readDigits w 0

/-- The column a sort expression stands for: a column name, or a position in
the select list `id, objectId, tenantId, name, createdAt, updatedAt,
deletedAt`.  Other expressions (function calls, arithmetic) are not modelled
and read as no column. -/
def readSortExpr (w : List Char) : Option String :=
  match columnNamed w with
  | some col => some col
  | none =>
    match readOrdinal w with
    | some n => if 1 ≤ n then tenantColumns.get? (n - 1) else none
    | none => none

/-- One item of an ORDER BY clause: a sort expression and an optional
direction keyword, ascending when there is none. -/
def readItem (item : List Char) : Option (String × Dir) :=
  match sqlWords item with
  | [e] => (readSortExpr e).map (fun col => (col, Dir.asc))
  | [e, d] =>
    match readSortExpr e, readDir d with
    | some col, some dir => some (col, dir)
    | _, _ => none
  | _ => none

/-- The items of an ORDER BY clause, all of them readable. -/
def readItems : List (List Char) → Option (List (String × Dir))
  | [] => some []
  | item :: rest =>
    match readItem item, readItems rest with
    | some k, some ks => some (k :: ks)
    | _, _ => none

/-- Modelled from the spec: how the store of §6 reads the text after
`ORDER BY` (standard SQL): items separated by commas, whatever part of the
request each piece of the text came from. -/
def parseOrderBy (text : String) : Option (List (String × Dir)) :=
  readItems (splitBy (fun c => decide (c = ',')) text.data)

/-- Strict order of column values with NULL below every value (MySQL sorts
NULL first in ascending and last in descending order). -/
def nullLt : Option Value → Option Value → Bool
  | none, some _ => true
  | some a, some b => Value.ltb a b
  | _, none => false

/-- Strict order of one sort key in its direction. -/
def keyLt : Dir → Option Value → Option Value → Bool
  | .asc, x, y => nullLt x y
  | .desc, x, y => nullLt y x

/-- The order of ORDER BY: rows are compared key by key. -/
def rowLe : List (String × Dir) → Tenant → Tenant → Bool
  | [], _, _ => true
  | (col, d) :: ks, a, b =>
    keyLt d (a.column col) (b.column col) ||
      (!keyLt d (b.column col) (a.column col) && rowLe ks a b)

/-- The relation behind `rowLe`. -/
def RowLe (keys : List (String × Dir)) (a b : Tenant) : Prop := rowLe keys a b = true

instance (keys : List (String × Dir)) : DecidableRel (RowLe keys) :=
  fun a b => inferInstanceAs (Decidable (rowLe keys a b = true))

/-- A row passes the WHERE clause when it is live and every conjunct is TRUE. -/
def passes (conds : List Cond) (t : Tenant) : Bool :=
  t.live && conds.all (fun c => decide (c.eval t = some true))

/-- Modelled from the spec: `repo.DB.SelectContext` of package `database`
(outside `src/`) on the persistence backend of §6, with standard SQL
semantics: the store reads the ORDER BY clause from its text; the statement is
rejected when that text cannot be read, when a condition names no column, or
when the limit is not a non-negative integer; otherwise the rows passing WHERE
are sorted by ORDER BY and cut at LIMIT (rows with equal keys, among which the
store promises no order, stay in table order).  An empty result is not an
error. -/
def DB.SelectContext (db : Tenants) (q : Select) : Except DbErr Tenants :=
  match parseOrderBy (keysText q.orderBy), q.limit with
  | some keys, .int n =>
    if q.conds.all (fun c => c.columns.all isColumn) ∧ 0 ≤ n then
      .ok (((db.filter (passes q.conds)).insertionSort (RowLe keys)).take n.toNat)
    else .error (.failure "invalid statement")
  | _, _ => .error (.failure "invalid statement")

/-- Modelled from the spec: `repo.DB.GetContext` of package `database` (outside
`src/`): the first row selected, `sql.ErrNoRows` when there is none. -/
def DB.GetContext (db : Tenants) (sel : Tenant → Bool) : Except DbErr Tenant :=
  match db.find? sel with
  | some t => .ok t
  | none => .error .errNoRows

/-- Modelled from the spec: `repo.DB.ExecContext` of package `database` (outside
`src/`) for an UPDATE statement, with standard SQL semantics: every selected
row is rewritten, the result carries the number of affected rows, and an
UPDATE that selects no row changes nothing and is not an error. -/
def DB.ExecContext (db : Tenants) (sel : Tenant → Bool) (set : Tenant → Tenant) :
    Tenants × Except DbErr Nat :=
  (db.map (fun t => if sel t then set t else t), .ok (db.countP sel))

/-! ## The repository -/

/-- Modelled from the spec: `middleware.ListParams`, declared outside `src/`
(§3: query, sortBy, sortOrder, the two cursors as id and value, limit). A nil
`AfterValue` or `BeforeValue` is `none`. -/
structure ListParams where
  Query : String
  SortBy : String
  SortOrder : String
  AfterId : String
  AfterValue : Option Value
  BeforeId : String
  BeforeValue : Option Value
  Limit : Int
  deriving Repr

/-- Modelled from the spec: the constant `middleware.SortOrderAsc`, declared
outside `src/` (the ascending literal). -/
def SortOrderAsc : String := "ASC"

/-- Modelled from the spec: the constant `middleware.SortOrderDesc`, declared
outside `src/` (the descending literal). -/
def SortOrderDesc : String := "DESC"

/-- Modelled from the spec: the errors of package `service` (outside `src/`)
that the repository and the handlers construct, and the two ways the
repository passes a driver error on (`errors.Wrap` and as it is). -/
inductive Err where
  | recordNotFound (typ key : String)
  | internal (msg : String)
  | invalidParameter (param msg : String)
  | wrapped (cause : DbErr) (msg : String)
  | driver (cause : DbErr)
  deriving DecidableEq, Repr

/-- Lines 114-121 of `List`: the initial query text and the empty parameter slice. -/
def listInit : String × List Value := (selectHead, [])

/-- Lines 123-127 of `List`: the search filter. -/
def listSearch (p : ListParams) (s : String × List Value) : String × List Value :=
  if p.Query ≠ "" then
    let searchTermReplacement := "%" ++ p.Query ++ "%"
    (s.1 ++ " AND (tenantId LIKE ? OR name LIKE ?)",
      s.2 ++ [.str searchTermReplacement, .str searchTermReplacement])
  else s

/-- Lines 129-155 of `List`: the forward cursor. -/
def listAfter (p : ListParams) (s : String × List Value) : String × List Value :=
  if p.AfterId ≠ "" then
    match p.AfterValue with
    | some afterValue =>
      if p.SortOrder = SortOrderAsc then
        (s.1 ++ " AND (" ++ p.SortBy ++ " > ? OR (tenantId > ? AND " ++ p.SortBy ++ " = ?))",
          s.2 ++ [afterValue, .str p.AfterId, afterValue])
      else
        (s.1 ++ " AND (" ++ p.SortBy ++ " < ? OR (tenantId < ? AND " ++ p.SortBy ++ " = ?))",
          s.2 ++ [afterValue, .str p.AfterId, afterValue])
    | none =>
      if p.SortOrder = SortOrderAsc then
        (s.1 ++ " AND tenantId > ?", s.2 ++ [.str p.AfterId])
      else
        (s.1 ++ " AND tenantId < ?", s.2 ++ [.str p.AfterId])
  else s

/-- Lines 157-183 of `List`: the backward cursor.  Without a `BeforeValue` the
parameter appended is `listParams.AfterId` (lines 177 and 180). -/
def listBefore (p : ListParams) (s : String × List Value) : String × List Value :=
  if p.BeforeId ≠ "" then
    match p.BeforeValue with
    | some beforeValue =>
      if p.SortOrder = SortOrderAsc then
        (s.1 ++ " AND (" ++ p.SortBy ++ " < ? OR (tenantId < ? AND " ++ p.SortBy ++ " = ?))",
          s.2 ++ [beforeValue, .str p.BeforeId, beforeValue])
      else
        (s.1 ++ " AND (" ++ p.SortBy ++ " > ? OR (tenantId > ? AND " ++ p.SortBy ++ " = ?))",
          s.2 ++ [beforeValue, .str p.BeforeId, beforeValue])
    | none =>
      if p.SortOrder = SortOrderAsc then
        (s.1 ++ " AND tenantId < ?", s.2 ++ [.str p.AfterId])
      else
        (s.1 ++ " AND tenantId > ?", s.2 ++ [.str p.AfterId])
  else s

/-- Lines 185-191 of `List`: ORDER BY and LIMIT. -/
def listOrder (p : ListParams) (s : String × List Value) : String × List Value :=
  if p.SortBy ≠ "tenantId" then
    (s.1 ++ " ORDER BY " ++ p.SortBy ++ " " ++ p.SortOrder ++ ", tenantId " ++ p.SortOrder
        ++ " LIMIT ?",
      s.2 ++ [.int p.Limit])
  else
    (s.1 ++ " ORDER BY tenantId " ++ p.SortOrder ++ " LIMIT ?", s.2 ++ [.int p.Limit])

/-- The query text and the replacements before ORDER BY (lines 114-183). -/
def listWhere (p : ListParams) : String × List Value :=
  listBefore p (listAfter p (listSearch p listInit))

/-- The query text and the replacements `List` passes to `SelectContext`
(lines 114-191), built as the source builds them. -/
def listQuery (p : ListParams) : String × List Value :=
  listOrder p (listWhere p)

/-- The keyset comparison `(col OP ? OR (tenantId OP ? AND col = ?))` with its
three parameters in placeholder order: the cursor value, the cursor id, the
cursor value. -/
def keysetCond (col : String) (op : CmpOp) (value id : Value) : Cond :=
  .paren (.or (.cmp col op value) (.paren (.and (.cmp "tenantId" op id) (.cmp col .eq value))))

/-- The conjunct of lines 123-127. -/
def searchConds (p : ListParams) : List Cond :=
  if p.Query ≠ "" then
    let searchTermReplacement := "%" ++ p.Query ++ "%"
    [.paren (.or (.like "tenantId" (.str searchTermReplacement))
      (.like "name" (.str searchTermReplacement)))]
  else []

/-- The conjunct of lines 129-155. -/
def afterConds (p : ListParams) : List Cond :=
  if p.AfterId ≠ "" then
    match p.AfterValue with
    | some afterValue =>
      if p.SortOrder = SortOrderAsc then [keysetCond p.SortBy .gt afterValue (.str p.AfterId)]
      else [keysetCond p.SortBy .lt afterValue (.str p.AfterId)]
    | none =>
      if p.SortOrder = SortOrderAsc then [.cmp "tenantId" .gt (.str p.AfterId)]
      else [.cmp "tenantId" .lt (.str p.AfterId)]
  else []

/-- The conjunct of lines 157-183, the id-only branches bound to
`listParams.AfterId` as in lines 177 and 180. -/
def beforeConds (p : ListParams) : List Cond :=
  if p.BeforeId ≠ "" then
    match p.BeforeValue with
    | some beforeValue =>
      if p.SortOrder = SortOrderAsc then [keysetCond p.SortBy .lt beforeValue (.str p.BeforeId)]
      else [keysetCond p.SortBy .gt beforeValue (.str p.BeforeId)]
    | none =>
      if p.SortOrder = SortOrderAsc then [.cmp "tenantId" .lt (.str p.AfterId)]
      else [.cmp "tenantId" .gt (.str p.AfterId)]
  else []

/-- The sort keys of lines 185-191. -/
def orderKeys (p : ListParams) : List (String × String) :=
  if p.SortBy ≠ "tenantId" then [(p.SortBy, p.SortOrder), ("tenantId", p.SortOrder)]
  else [("tenantId", p.SortOrder)]

/-- The statement of `List` as the store reads it: the conjuncts, sort keys and
limit of `listQuery`, each placeholder with its parameter
(`listQuery_eq_listPlan` below shows that its text and parameters are those
`listQuery` builds). -/
def listPlan (p : ListParams) : Select where
  conds := searchConds p ++ afterConds p ++ beforeConds p
  orderBy := orderKeys p
  limit := .int p.Limit

/-- `MySQLRepository.List` (lines 111-213): the statement is run by
`SelectContext`; `sql.ErrNoRows` gives the empty page, any other driver error
an internal error. -/
def MySQLRepository.List (db : Tenants) (p : ListParams) : Except Err Tenants :=
  match DB.SelectContext db (listPlan p) with
  | .error .errNoRows => .ok []
  | .error _ => .error (.internal "Unable to list tenants")
  | .ok tenants => .ok tenants

/-- `MySQLRepository.GetByTenantId` (lines 85-109). -/
def MySQLRepository.GetByTenantId (db : Tenants) (tenantId : String) : Except Err Tenant :=
  match DB.GetContext db (fun t => decide (t.tenantId = tenantId) && t.live) with
  | .error .errNoRows => .error (.recordNotFound "Tenant" tenantId)
  | .error _ => .error (.internal ("Unable to get Tenant " ++ tenantId ++ " from mysql"))
  | .ok tenant => .ok tenant

/-- Lines 229-233 of `UpdateByTenantId`: the error returned for an outcome of
`ExecContext` (`none` is nil); a driver error is wrapped, whichever it is. -/
def updateErr (model : Tenant) : Except DbErr Nat → Option Err
  | .error err => some (.wrapped err ("Error updating tenant " ++ toString model.id))
  | .ok _ => none

/-- `MySQLRepository.UpdateByTenantId` (lines 215-234): the store after the
call and the error returned. -/
def MySQLRepository.UpdateByTenantId (db : Tenants) (tenantId : String) (model : Tenant) :
    Tenants × Option Err :=
  let res := DB.ExecContext db (fun t => decide (t.tenantId = tenantId) && t.live)
    (fun t => { t with name := model.name })
  (res.1, updateErr model res.2)

/-- Lines 250-259 of `DeleteByTenantId`: the error returned for an outcome of
`ExecContext`; `sql.ErrNoRows` is turned into record-not-found, any other
driver error is passed on. -/
def deleteErr (tenantId : String) : Except DbErr Nat → Option Err
  | .error .errNoRows => some (.recordNotFound "Tenant" tenantId)
  | .error err => some (.driver err)
  | .ok _ => none

/-- `MySQLRepository.DeleteByTenantId` (lines 236-260), `now` being
`time.Now().UTC()`: the store after the call and the error returned. -/
def MySQLRepository.DeleteByTenantId (db : Tenants) (now : Int) (tenantId : String) :
    Tenants × Option Err :=
  let res := DB.ExecContext db (fun t => decide (t.tenantId = tenantId) && t.live)
    (fun t => { t with deletedAt := some now })
  (res.1, deleteErr tenantId res.2)

/-! ## Traversals -/

/-- The forward cursor taken from a row: its `tenantId` and its value of the
sort column (nil when that value is NULL). -/
def cursorAfter (p : ListParams) (t : Tenant) : ListParams :=
  { p with AfterId := t.tenantId, AfterValue := t.column p.SortBy }

/-- The backward cursor taken from a row. -/
def cursorBefore (p : ListParams) (t : Tenant) : ListParams :=
  { p with BeforeId := t.tenantId, BeforeValue := t.column p.SortBy }

/-- Forward traversal: `List` is called, the cursor is advanced to the last row
of the page, until a page comes back empty (or `List` fails); the pages are
concatenated.  `fuel` bounds the number of calls. -/
def forwardPages : Nat → Tenants → ListParams → Tenants
  | 0, _, _ => []
  | fuel + 1, db, p =>
    match MySQLRepository.List db p with
    | .ok page =>
      match page.getLast? with
      | some last => page ++ forwardPages fuel db (cursorAfter p last)
      | none => []
    | .error _ => []

/-- A column value in the order with NULL at the bottom. -/
def nullBot : Option Value → WithBot Value
  | some v => (v : WithBot Value)
  | none => ⊥

/-- The live rows of the table. -/
def liveRows (db : Tenants) : Tenants := db.filter Tenant.live

/-- The pair `(sortBy value, tenantId)` of a row in the lexicographic order,
NULL below every value. -/
def sortKey (col : String) (t : Tenant) : Lex (WithBot Value × String) :=
  toLex (nullBot (t.column col), t.tenantId)

/-- A row comes before another in the order of the request: by `sortKey`,
upwards for `ASC` and downwards otherwise. -/
def Before (p : ListParams) (a b : Tenant) : Prop :=
  if p.SortOrder = SortOrderAsc then sortKey p.SortBy a < sortKey p.SortBy b
  else sortKey p.SortBy b < sortKey p.SortBy a

/-- A tenant row with the given tenantId, name and creation time. -/
def mkTenant (id : Int) (tenantId : String) (name : Option String) (createdAt : Int) : Tenant :=
  { id := id, objectId := "obj", tenantId := tenantId, name := name, createdAt := createdAt,
    updatedAt := createdAt, deletedAt := none }

/-- The rows of the specification's scenario: ids a, b, c with scores 1, 1, 2,
the score held in column `createdAt`, inserted in the order c, a, b. -/
def scenarioRows : Tenants :=
  [mkTenant 3 "c" none 2, mkTenant 1 "a" none 1, mkTenant 2 "b" none 1]

/-- The request of the scenario: ascending by score, two rows a page. -/
def scenarioParams : ListParams :=
  { Query := "", SortBy := "createdAt", SortOrder := "ASC", AfterId := "", AfterValue := none,
    BeforeId := "", BeforeValue := none, Limit := 2 }

/-- The number of `?` placeholders in a query text. -/
def placeholders (s : String) : Nat := s.data.count '?'

/-- A request with a search term and a paired forward cursor. -/
def pagedParams : ListParams :=
  { Query := "ten", SortBy := "name", SortOrder := "DESC", AfterId := "tenant-b",
    AfterValue := some (.str "tenant-b"), BeforeId := "", BeforeValue := none, Limit := 2 }

/-- The direction `List` pages in: ascending for `SortOrderAsc`, descending otherwise. -/
def dirOf (p : ListParams) : Dir :=
  if p.SortOrder = SortOrderAsc then .asc else .desc

/-- The sort keys of the request with their directions. -/
def planKeys (p : ListParams) : List (String × Dir) :=
  if p.SortBy ≠ "tenantId" then [(p.SortBy, dirOf p), ("tenantId", dirOf p)]
  else [("tenantId", dirOf p)]

/-- The full traversal of a snapshot: every live row, in the order of the request. -/
def traversal (db : Tenants) (p : ListParams) : Tenants :=
  (liveRows db).insertionSort (RowLe (planKeys p))

/-- Every conjunct of the statement is TRUE of the row. -/
def condsHold (conds : List Cond) (t : Tenant) : Bool :=
  conds.all (fun c => decide (c.eval t = some true))

/-- The pair `(sortBy value, tenantId)` of the row is strictly greater than the
cursor pair `(value, id)` in the lexicographic order; a NULL sortBy value
compares with nothing. -/
def PairAbove (col : String) (t : Tenant) (value : Value) (id : String) : Prop :=
  ∃ x, t.column col = some x ∧ (toLex (value, id) : Lex (Value × String)) < toLex (x, t.tenantId)

/-- The pair `(sortBy value, tenantId)` of the row is strictly less than the
cursor pair `(value, id)` in the lexicographic order; a NULL sortBy value
compares with nothing. -/
def PairBelow (col : String) (t : Tenant) (value : Value) (id : String) : Prop :=
  ∃ x, t.column col = some x ∧ (toLex (x, t.tenantId) : Lex (Value × String)) < toLex (value, id)

/-- The request names a column of the table and one of the two directions. -/
def WellFormed (p : ListParams) : Prop :=
  p.SortBy ∈ tenantColumns ∧ (p.SortOrder = SortOrderAsc ∨ p.SortOrder = SortOrderDesc)

/-- A snapshot a cursor can page through: every live row has a sortBy value
that is not NULL and a tenantId that is not empty, and the pairs
(sortBy value, tenantId) of the live rows are pairwise distinct. -/
def Pageable (db : Tenants) (p : ListParams) : Prop :=
  (∀ t ∈ liveRows db, (t.column p.SortBy).isSome = true ∧ t.tenantId ≠ "") ∧
    (liveRows db).Pairwise
      (fun a b => (a.column p.SortBy, a.tenantId) ≠ (b.column p.SortBy, b.tenantId))

/-- A snapshot with a NULL name: t2 has no name, t1 is named a. -/
def nullNameRows : Tenants := [mkTenant 1 "t2" none 1, mkTenant 2 "t1" (some "a") 2]

/-- A request sorted by name, one row a page. -/
def byNameParams : ListParams :=
  { Query := "", SortBy := "name", SortOrder := "ASC", AfterId := "", AfterValue := none,
    BeforeId := "", BeforeValue := none, Limit := 1 }

/-- A snapshot with an empty tenantId. -/
def emptyIdRows : Tenants := [mkTenant 1 "" (some "x") 1, mkTenant 2 "a" (some "y") 2]

/-- A request sorted by tenantId, one row a page. -/
def byIdParams : ListParams :=
  { Query := "", SortBy := "tenantId", SortOrder := "ASC", AfterId := "", AfterValue := none,
    BeforeId := "", BeforeValue := none, Limit := 1 }

/-- Four live rows a, b, c, d. -/
def fourRows : Tenants :=
  [mkTenant 1 "c" (some "n3") 3, mkTenant 2 "a" (some "n1") 1, mkTenant 3 "d" (some "n4") 4,
    mkTenant 4 "b" (some "n2") 2]

/-- A request sorted by tenantId, two rows a page. -/
def twoByIdParams : ListParams :=
  { Query := "", SortBy := "tenantId", SortOrder := "ASC", AfterId := "", AfterValue := none,
    BeforeId := "", BeforeValue := none, Limit := 2 }

/-- A snapshot with a NULL name first in the order by name: t1 has no name, t2 is named a. -/
def nullFirstRows : Tenants := [mkTenant 1 "t1" none 1, mkTenant 2 "t2" (some "a") 2]

/-- A search term without the characters LIKE reads specially: `%`, `_` and the backslash. -/
def Plain (q : List Char) : Prop := ∀ c ∈ q, c ≠ '%' ∧ c ≠ '_' ∧ c ≠ '\\'

/-- The search term occurs as a substring of the tenantId or of the name of the row. -/
def substringMatch (q : String) (t : Tenant) : Bool :=
  decide (q.data <:+: t.tenantId.data) ||
    match t.name with
    | some n => decide (q.data <:+: n.data)
    | none => false

/-- The rows of the search scenario: names tenant-a, other, tenant-b. -/
def searchRows : Tenants :=
  [mkTenant 1 "id-1" (some "tenant-a") 1, mkTenant 2 "id-2" (some "other") 2,
    mkTenant 3 "id-3" (some "tenant-b") 3]

/-- The request of the search scenario: the term ten, ordered by name. -/
def searchParams : ListParams :=
  { Query := "ten", SortBy := "name", SortOrder := "ASC", AfterId := "", AfterValue := none,
    BeforeId := "", BeforeValue := none, Limit := 10 }

/-- A request searching for the one-character term `_`. -/
def wildcardParams : ListParams :=
  { Query := "_", SortBy := "name", SortOrder := "ASC", AfterId := "", AfterValue := none,
    BeforeId := "", BeforeValue := none, Limit := 10 }

/-- A request with a backward cursor id and no paired value. -/
def backIdOnlyParams : ListParams :=
  { Query := "", SortBy := "tenantId", SortOrder := "ASC", AfterId := "", AfterValue := none,
    BeforeId := "c", BeforeValue := none, Limit := 10 }

/-- A request sorted by a name that is no column of the table. -/
def bogusParams : ListParams :=
  { Query := "", SortBy := "bogus", SortOrder := "ASC", AfterId := "", AfterValue := none,
    BeforeId := "", BeforeValue := none, Limit := 10 }

/-- A request with both cursors: after a and before d. -/
def bothCursorsParams : ListParams :=
  { Query := "", SortBy := "tenantId", SortOrder := "ASC", AfterId := "a",
    AfterValue := some (.str "a"), BeforeId := "d", BeforeValue := some (.str "d"), Limit := 10 }

/-- A table whose only row for tenantId x is soft-deleted. -/
def deletedRows : Tenants :=
  [{ mkTenant 1 "x" (some "old") 1 with deletedAt := some 5 }, mkTenant 2 "y" (some "why") 2]

/-- A table with a live row for tenantId x. -/
def liveXRows : Tenants := [mkTenant 1 "x" (some "ex") 1, mkTenant 2 "y" (some "why") 2]

/-- Three live rows with the same creation time: a named m, b named z, c named k. -/
def sameTimeRows : Tenants :=
  [mkTenant 1 "a" (some "m") 1, mkTenant 2 "b" (some "z") 1, mkTenant 3 "c" (some "k") 1]

/-- A request whose SortOrder carries a second sort key. -/
def injectedOrderParams : ListParams :=
  { Query := "", SortBy := "createdAt", SortOrder := "ASC, name DESC", AfterId := "",
    AfterValue := none, BeforeId := "", BeforeValue := none, Limit := 10 }

/-- A request with the direction in lower case and the column in upper case. -/
def lowerCaseParams : ListParams :=
  { Query := "", SortBy := "CREATEDAT", SortOrder := "asc", AfterId := "", AfterValue := none,
    BeforeId := "", BeforeValue := none, Limit := 10 }

/-! ## The text of the statement and its parameters -/

theorem condsText_append (a b : List Cond) : condsText (a ++ b) = condsText a ++ condsText b := by
  induction a with
  | nil => simp [condsText]
  | cons c cs ih => simp [condsText, ih, String.append_assoc]

theorem keysetCond_text (col : String) (op : CmpOp) (v i : Value) :
    (keysetCond col op v i).text =
      "(" ++ col ++ " " ++ op.text ++ " ? OR (tenantId " ++ op.text ++ " ? AND " ++ col ++ " = ?))" := by
  apply String.ext
  simp only [keysetCond, Cond.text, CmpOp.text, String.data_append, List.append_assoc]
  rfl

theorem listSearch_eq (p : ListParams) (s : String × List Value) :
    listSearch p s = (s.1 ++ condsText (searchConds p), s.2 ++ ((searchConds p).map Cond.args).flatten) := by
  unfold listSearch searchConds
  by_cases h : p.Query = ""
  · simp [h, condsText]
  · simp only [h, ne_eq, not_false_eq_true, if_true]
    refine Prod.ext ?_ ?_
    · apply String.ext
      simp only [condsText, Cond.text, String.data_append, List.append_assoc]
      rfl
    · simp [Cond.args]

theorem listAfter_eq (p : ListParams) (s : String × List Value) :
    listAfter p s = (s.1 ++ condsText (afterConds p), s.2 ++ ((afterConds p).map Cond.args).flatten) := by
  unfold listAfter afterConds
  by_cases h : p.AfterId = ""
  · simp [h, condsText]
  · simp only [h, ne_eq, not_false_eq_true, if_true]
    cases p.AfterValue <;> by_cases h4 : p.SortOrder = SortOrderAsc <;>
      simp only [h4, if_true, if_false] <;> refine Prod.ext ?_ ?_ <;>
      first
        | (apply String.ext
           simp only [condsText, keysetCond, CmpOp.text, Cond.text, String.data_append, List.append_assoc]
           rfl)
        | simp [Cond.args, keysetCond]

theorem placeholders_append (a b : String) :
    placeholders (a ++ b) = placeholders a + placeholders b := by
  simp [placeholders, String.data_append, List.count_append]

theorem placeholders_selectHead : placeholders selectHead = 0 := by decide

theorem listSearch_balanced (p : ListParams) (s : String × List Value)
    (h : placeholders s.1 = s.2.length) :
    placeholders (listSearch p s).1 = (listSearch p s).2.length := by
  unfold listSearch
  by_cases hq : p.Query = ""
  · simp [hq, h]
  · simp only [hq, ne_eq, not_false_eq_true, if_true, placeholders_append, h, List.length_append]
    rfl

theorem listAfter_balanced (p : ListParams) (s : String × List Value)
    (hs : placeholders p.SortBy = 0) (h : placeholders s.1 = s.2.length) :
    placeholders (listAfter p s).1 = (listAfter p s).2.length := by
  unfold listAfter
  by_cases hq : p.AfterId = ""
  · simp [hq, h]
  · simp only [hq, ne_eq, not_false_eq_true, if_true]
    cases p.AfterValue <;> by_cases h4 : p.SortOrder = SortOrderAsc <;>
      simp only [h4, if_true, if_false, placeholders_append, h, hs, List.length_append] <;> rfl

/-! ## The order of ORDER BY -/

theorem Value.lt_def (a b : Value) : a < b ↔ Value.rank a < Value.rank b := Iff.rfl

theorem Value.ltb_iff (a b : Value) : Value.ltb a b = true ↔ a < b := by
  rw [Value.lt_def]
  cases a <;> cases b <;>
    simp [Value.ltb, Value.rank, Sum.Lex.inl_lt_inl_iff, Sum.Lex.inr_lt_inr_iff,
      Sum.Lex.inl_lt_inr, Sum.Lex.not_inr_lt_inl]

theorem Value.str_lt_str (a b : String) : Value.str a < Value.str b ↔ a < b := by
  rw [Value.lt_def]; simp [Value.rank, Sum.Lex.inr_lt_inr_iff]

theorem nullLt_iff (x y : Option Value) :
    nullLt x y = true ↔ nullBot x < nullBot y := by
  cases x <;> cases y
  · simp [nullLt, nullBot]
  · simp only [nullLt, nullBot, true_iff]; exact WithBot.bot_lt_coe _
  · simp only [nullLt, nullBot, Bool.false_eq_true, false_iff]; exact not_lt_bot
  · simp only [nullLt, nullBot, Value.ltb_iff]; exact WithBot.coe_lt_coe.symm

theorem keyLt_irrefl (d : Dir) (x : Option Value) : keyLt d x x = false := by
  cases d <;> simp only [keyLt, Bool.eq_false_iff, ne_eq, nullLt_iff] <;> exact lt_irrefl _

theorem keyLt_trans (d : Dir) (x y z : Option Value) (h1 : keyLt d x y = true)
    (h2 : keyLt d y z = true) : keyLt d x z = true := by
  cases d <;> simp only [keyLt, nullLt_iff] at *
  · exact lt_trans h1 h2
  · exact lt_trans h2 h1

theorem keyLt_of_lt_of_not_lt (d : Dir) (x y z : Option Value) (h1 : keyLt d x y = true)
    (h2 : keyLt d z y = false) : keyLt d x z = true := by
  cases d <;> simp only [keyLt, nullLt_iff, Bool.eq_false_iff, ne_eq, not_lt] at *
  · exact lt_of_lt_of_le h1 h2
  · exact lt_of_le_of_lt h2 h1

theorem keyLt_of_not_lt_of_lt (d : Dir) (x y z : Option Value) (h1 : keyLt d y x = false)
    (h2 : keyLt d y z = true) : keyLt d x z = true := by
  cases d <;> simp only [keyLt, nullLt_iff, Bool.eq_false_iff, ne_eq, not_lt] at *
  · exact lt_of_le_of_lt h1 h2
  · exact lt_of_lt_of_le h2 h1

theorem keyLt_not_lt_trans (d : Dir) (x y z : Option Value) (h1 : keyLt d y x = false)
    (h2 : keyLt d z y = false) : keyLt d z x = false := by
  cases d <;> simp only [keyLt, nullLt_iff, Bool.eq_false_iff, ne_eq, not_lt] at *
  · exact le_trans h1 h2
  · exact le_trans h2 h1

theorem rowLe_total (keys : List (String × Dir)) (a b : Tenant) :
    rowLe keys a b = true ∨ rowLe keys b a = true := by
  induction keys with
  | nil => simp [rowLe]
  | cons k ks ih =>
    obtain ⟨col, d⟩ := k
    simp only [rowLe]
    cases h1 : keyLt d (a.column col) (b.column col) <;>
      cases h2 : keyLt d (b.column col) (a.column col) <;> simp [ih]

theorem rowLe_trans (keys : List (String × Dir)) (a b c : Tenant)
    (hab : rowLe keys a b = true) (hbc : rowLe keys b c = true) : rowLe keys a c = true := by
  induction keys with
  | nil => simp [rowLe]
  | cons k ks ih =>
    obtain ⟨col, d⟩ := k
    simp only [rowLe, Bool.or_eq_true, Bool.and_eq_true, Bool.not_eq_true'] at *
    rcases hab with h1 | ⟨h1, r1⟩ <;> rcases hbc with h2 | ⟨h2, r2⟩
    · exact Or.inl (keyLt_trans d _ _ _ h1 h2)
    · exact Or.inl (keyLt_of_lt_of_not_lt d _ _ _ h1 h2)
    · exact Or.inl (keyLt_of_not_lt_of_lt d _ _ _ h1 h2)
    · exact Or.inr ⟨keyLt_not_lt_trans d _ _ _ h1 h2, ih r1 r2⟩

theorem rowLe_refl (keys : List (String × Dir)) (a : Tenant) : rowLe keys a a = true := by
  rcases rowLe_total keys a a with h | h <;> exact h

theorem RowLe.isTotal (keys : List (String × Dir)) : IsTotal Tenant (RowLe keys) :=
  ⟨fun a b => rowLe_total keys a b⟩

theorem RowLe.isTrans (keys : List (String × Dir)) : IsTrans Tenant (RowLe keys) :=
  ⟨fun a b c => rowLe_trans keys a b c⟩

/-! ## The statement of `List` -/

theorem listBefore_eq (p : ListParams) (s : String × List Value) :
    listBefore p s =
      (s.1 ++ condsText (beforeConds p), s.2 ++ ((beforeConds p).map Cond.args).flatten) := by
  unfold listBefore beforeConds
  by_cases h : p.BeforeId = ""
  · simp [h, condsText]
  · simp only [h, ne_eq, not_false_eq_true, if_true]
    cases p.BeforeValue <;> by_cases h4 : p.SortOrder = SortOrderAsc <;>
      simp only [h4, if_true, if_false] <;> refine Prod.ext ?_ ?_ <;>
      first
        | (apply String.ext
           simp only [condsText, keysetCond, CmpOp.text, Cond.text, String.data_append,
             List.append_assoc]
           rfl)
        | simp [Cond.args, keysetCond]

theorem listOrder_eq (p : ListParams) (s : String × List Value) :
    listOrder p s =
      (s.1 ++ " ORDER BY " ++ keysText (orderKeys p) ++ " LIMIT ?", s.2 ++ [.int p.Limit]) := by
  unfold listOrder orderKeys
  by_cases h : p.SortBy = "tenantId" <;>
    simp only [h, ne_eq, not_true_eq_false, not_false_eq_true, if_true, if_false] <;>
    refine Prod.ext ?_ rfl <;> apply String.ext <;>
    simp only [keysText, String.data_append, List.append_assoc] <;> rfl

theorem listWhere_eq (p : ListParams) :
    listWhere p =
      (selectHead ++ condsText (listPlan p).conds, ((listPlan p).conds.map Cond.args).flatten) := by
  simp only [listWhere, listBefore_eq, listAfter_eq, listSearch_eq, listInit, listPlan,
    condsText_append, String.append_assoc, List.map_append, List.flatten_append, List.nil_append,
    List.append_assoc]

/-- The text and the parameters `listQuery` builds are those of the statement `listPlan`. -/
theorem listQuery_eq_listPlan (p : ListParams) :
    listQuery p = ((listPlan p).text, (listPlan p).args) := by
  simp only [listQuery, listOrder_eq, listWhere_eq, Select.text, Select.args]
  rfl

theorem listBefore_balanced (p : ListParams) (s : String × List Value)
    (hs : placeholders p.SortBy = 0) (h : placeholders s.1 = s.2.length) :
    placeholders (listBefore p s).1 = (listBefore p s).2.length := by
  unfold listBefore
  by_cases hq : p.BeforeId = ""
  · simp [hq, h]
  · simp only [hq, ne_eq, not_false_eq_true, if_true]
    cases p.BeforeValue <;> by_cases h4 : p.SortOrder = SortOrderAsc <;>
      simp only [h4, if_true, if_false, placeholders_append, h, hs, List.length_append] <;> rfl

theorem listOrder_balanced (p : ListParams) (s : String × List Value)
    (hs : placeholders p.SortBy = 0) (ho : placeholders p.SortOrder = 0)
    (h : placeholders s.1 = s.2.length) :
    placeholders (listOrder p s).1 = (listOrder p s).2.length := by
  unfold listOrder
  by_cases hq : p.SortBy = "tenantId" <;>
    simp only [hq, ne_eq, not_true_eq_false, not_false_eq_true, if_true, if_false,
      placeholders_append, h, hs, ho, List.length_append] <;> rfl

theorem listOrder_getLast (p : ListParams) (s : String × List Value) :
    (listOrder p s).2.getLast? = some (.int p.Limit) := by
  unfold listOrder
  by_cases hq : p.SortBy = "tenantId" <;> simp [hq]

/-- C10: when neither SortBy nor SortOrder contains a question mark, the query
text `List` builds has as many `?` placeholders as the replacements slice has
elements, and the last replacement is the limit. -/
theorem listQuery_placeholders_match (p : ListParams)
    (hs : '?' ∉ p.SortBy.data) (ho : '?' ∉ p.SortOrder.data) :
    placeholders (listQuery p).1 = (listQuery p).2.length ∧
      (listQuery p).2.getLast? = some (.int p.Limit) := by
  have hs0 : placeholders p.SortBy = 0 := List.count_eq_zero_of_not_mem hs
  have ho0 : placeholders p.SortOrder = 0 := List.count_eq_zero_of_not_mem ho
  refine ⟨?_, listOrder_getLast p _⟩
  apply listOrder_balanced p _ hs0 ho0
  apply listBefore_balanced p _ hs0
  apply listAfter_balanced p _ hs0
  apply listSearch_balanced p
  rfl

theorem listQuery_placeholders_match_witness :
    ('?' ∉ pagedParams.SortBy.data ∧ '?' ∉ pagedParams.SortOrder.data) ∧
      placeholders (listQuery pagedParams).1 = (listQuery pagedParams).2.length ∧
      (listQuery pagedParams).2.getLast? = some (.int pagedParams.Limit) :=
  ⟨⟨by decide, by decide⟩, listQuery_placeholders_match pagedParams (by decide) (by decide)⟩

/-! ## Sorting and filtering -/

theorem orderedInsert_of_forall_le {r : Tenant → Tenant → Prop} [DecidableRel r] (a : Tenant)
    (l : List Tenant) (h : ∀ x ∈ l, r a x) : l.orderedInsert r a = a :: l := by
  cases l with
  | nil => rfl
  | cons b l => exact List.orderedInsert_of_le r l (h b (List.mem_cons_self _ _))

theorem filter_orderedInsert {r : Tenant → Tenant → Prop} [DecidableRel r] [IsTrans Tenant r]
    (f : Tenant → Bool) (a : Tenant) (l : List Tenant) (hl : l.Sorted r) :
    (l.orderedInsert r a).filter f =
      if f a then (l.filter f).orderedInsert r a else l.filter f := by
  induction l with
  | nil => by_cases ha : f a <;> simp [ha]
  | cons b l ih =>
    have hl2 : l.Sorted r := hl.of_cons
    have hb : ∀ x ∈ l, r b x := fun x hx => List.rel_of_sorted_cons hl x hx
    by_cases hab : r a b
    · rw [List.orderedInsert_of_le r l hab]
      by_cases ha : f a
      · rw [List.filter_cons_of_pos ha, if_pos ha]
        symm
        apply orderedInsert_of_forall_le
        intro x hx
        have hx2 : x ∈ b :: l := List.mem_of_mem_filter hx
        rcases List.mem_cons.mp hx2 with rfl | hx3
        · exact hab
        · exact IsTrans.trans _ _ _ hab (hb x hx3)
      · rw [List.filter_cons_of_neg ha, if_neg ha]
    · simp only [List.orderedInsert, hab, if_false]
      by_cases hfb : f b
      · rw [List.filter_cons_of_pos hfb, List.filter_cons_of_pos hfb, ih hl2]
        by_cases ha : f a
        · simp only [ha, if_true, List.orderedInsert, hab, if_false]
        · simp only [ha, if_false]; rfl
      · rw [List.filter_cons_of_neg hfb, List.filter_cons_of_neg hfb, ih hl2]

theorem filter_insertionSort {r : Tenant → Tenant → Prop} [DecidableRel r] [IsTrans Tenant r]
    [IsTotal Tenant r] (f : Tenant → Bool) (l : List Tenant) :
    (l.insertionSort r).filter f = (l.filter f).insertionSort r := by
  induction l with
  | nil => rfl
  | cons a l ih =>
    rw [List.insertionSort, filter_orderedInsert f a _ (List.sorted_insertionSort r l), ih]
    by_cases ha : f a
    · rw [if_pos ha, List.filter_cons_of_pos ha, List.insertionSort]
    · rw [if_neg ha, List.filter_cons_of_neg ha]

/-! ## What `List` returns -/

theorem parseOrderBy_orderKeys (p : ListParams) (hcol : p.SortBy ∈ tenantColumns)
    (hord : p.SortOrder = SortOrderAsc ∨ p.SortOrder = SortOrderDesc) :
    parseOrderBy (keysText (orderKeys p)) = some (planKeys p) := by
  simp only [tenantColumns, List.mem_cons, List.mem_singleton, List.not_mem_nil, or_false]
    at hcol
  unfold orderKeys planKeys dirOf
  rcases hcol with h | h | h | h | h | h | h <;> rcases hord with ho | ho <;>
    rw [h, ho] <;> rfl

theorem isColumn_of_mem (col : String) (h : col ∈ tenantColumns) : isColumn col = true := by
  simp only [tenantColumns, List.mem_cons, List.mem_singleton, List.not_mem_nil, or_false] at h
  rcases h with h | h | h | h | h | h | h <;> rw [h] <;> rfl

theorem keysetCond_columns (col : String) (op : CmpOp) (v i : Value) :
    (keysetCond col op v i).columns = [col, "tenantId", col] := rfl

theorem listPlan_columns (p : ListParams) (hcol : p.SortBy ∈ tenantColumns) :
    (listPlan p).conds.all (fun c => c.columns.all isColumn) = true := by
  have ht : isColumn "tenantId" = true := rfl
  have hn : isColumn "name" = true := rfl
  have hs : isColumn p.SortBy = true := isColumn_of_mem _ hcol
  simp only [listPlan, List.all_append, Bool.and_eq_true]
  refine ⟨⟨?_, ?_⟩, ?_⟩
  · unfold searchConds
    by_cases h : p.Query = "" <;> simp [h, Cond.columns, ht, hn]
  · unfold afterConds
    by_cases h : p.AfterId = ""
    · simp [h]
    · cases p.AfterValue <;> by_cases h4 : p.SortOrder = SortOrderAsc <;>
        simp [h, h4, keysetCond_columns, Cond.columns, ht, hs]
  · unfold beforeConds
    by_cases h : p.BeforeId = ""
    · simp [h]
    · cases p.BeforeValue <;> by_cases h4 : p.SortOrder = SortOrderAsc <;>
        simp [h, h4, keysetCond_columns, Cond.columns, ht, hs]

theorem filter_passes (conds : List Cond) (db : Tenants) :
    db.filter (passes conds) = (liveRows db).filter (condsHold conds) := by
  simp only [liveRows, List.filter_filter]
  apply List.filter_congr
  intro t _
  simp [passes, condsHold, Bool.and_comm]

/-- A well-formed request is answered with the rows of the traversal that pass
the conjuncts, cut at the limit. -/
theorem list_eq_ok (db : Tenants) (p : ListParams) (hcol : p.SortBy ∈ tenantColumns)
    (hord : p.SortOrder = SortOrderAsc ∨ p.SortOrder = SortOrderDesc) (hlim : 0 ≤ p.Limit) :
    MySQLRepository.List db p =
      .ok (((traversal db p).filter (condsHold (listPlan p).conds)).take p.Limit.toNat) := by
  haveI := RowLe.isTotal (planKeys p)
  haveI := RowLe.isTrans (planKeys p)
  have hk : parseOrderBy (keysText (listPlan p).orderBy) = some (planKeys p) :=
    parseOrderBy_orderKeys p hcol hord
  have hl : (listPlan p).limit = .int p.Limit := rfl
  unfold MySQLRepository.List DB.SelectContext
  rw [hk, hl]
  simp only [listPlan_columns p hcol, hlim, and_self, if_true]
  rw [filter_passes, traversal, filter_insertionSort]

/-! ## The cursor predicates -/

theorem Tenant.column_tenantId (t : Tenant) : t.column "tenantId" = some (.str t.tenantId) :=
  rfl

theorem CmpOp.holds_gt (a b : Value) : CmpOp.holds .gt a b = true ↔ b < a := by
  simp [CmpOp.holds, Value.ltb_iff]

theorem CmpOp.holds_lt (a b : Value) : CmpOp.holds .lt a b = true ↔ a < b := by
  simp [CmpOp.holds, Value.ltb_iff]

/-- The keyset comparison is TRUE of a row exactly when the sort column is not
NULL and either compares as the operator says, or equals the cursor value with
the tenantId comparing as the operator says. -/
theorem keysetCond_eval (col : String) (op : CmpOp) (v : Value) (id : String) (t : Tenant) :
    (keysetCond col op v (.str id)).eval t = some true ↔
      ∃ x, t.column col = some x ∧
        (op.holds x v = true ∨ (x = v ∧ op.holds (.str t.tenantId) (.str id) = true)) := by
  have he : ∀ a b : Value, CmpOp.holds .eq a b = decide (a = b) := fun _ _ => rfl
  simp only [keysetCond, Cond.eval, Tenant.column_tenantId]
  cases hx : t.column col with
  | none =>
    cases h : op.holds (.str t.tenantId) (.str id) <;> simp [Tri.or, Tri.and]
  | some x =>
    by_cases h3 : x = v
    · subst h3
      cases h1 : op.holds x x <;> cases h2 : op.holds (.str t.tenantId) (.str id) <;>
        simp [Tri.or, Tri.and, he, h1, h2]
    · cases h1 : op.holds x v <;> cases h2 : op.holds (.str t.tenantId) (.str id) <;>
        simp [Tri.or, Tri.and, he, h1, h2, h3]

theorem keysetCond_gt_iff (col : String) (v : Value) (id : String) (t : Tenant) :
    (keysetCond col .gt v (.str id)).eval t = some true ↔ PairAbove col t v id := by
  rw [keysetCond_eval, PairAbove]
  refine exists_congr fun x => and_congr_right fun _ => ?_
  rw [Prod.Lex.lt_iff, CmpOp.holds_gt, CmpOp.holds_gt, Value.str_lt_str]
  simp only [eq_comm]

theorem keysetCond_lt_iff (col : String) (v : Value) (id : String) (t : Tenant) :
    (keysetCond col .lt v (.str id)).eval t = some true ↔ PairBelow col t v id := by
  rw [keysetCond_eval, PairBelow]
  refine exists_congr fun x => and_congr_right fun _ => ?_
  rw [Prod.Lex.lt_iff, CmpOp.holds_lt, CmpOp.holds_lt, Value.str_lt_str]

/-- C2: with a paired cursor value, the predicate `List` appends is TRUE of a
row exactly when the pair (sortBy value, tenantId) of the row is, in the
lexicographic order, strictly greater than (AfterValue, AfterId) for ascending
order and strictly less otherwise (forward cursor), and strictly less than
(BeforeValue, BeforeId) for ascending order and strictly greater otherwise
(backward cursor). -/
theorem cursor_pair_predicate (p q : ListParams) (t : Tenant) (v w : Value)
    (hp : p.AfterId ≠ "") (hv : p.AfterValue = some v)
    (hq : q.BeforeId ≠ "") (hw : q.BeforeValue = some w) :
    (∃ c, afterConds p = [c] ∧ c.args = [v, .str p.AfterId, v] ∧
      (c.eval t = some true ↔
        if p.SortOrder = SortOrderAsc then PairAbove p.SortBy t v p.AfterId
        else PairBelow p.SortBy t v p.AfterId)) ∧
    (∃ c, beforeConds q = [c] ∧ c.args = [w, .str q.BeforeId, w] ∧
      (c.eval t = some true ↔
        if q.SortOrder = SortOrderAsc then PairBelow q.SortBy t w q.BeforeId
        else PairAbove q.SortBy t w q.BeforeId)) := by
  constructor
  · by_cases h : p.SortOrder = SortOrderAsc
    · exact ⟨keysetCond p.SortBy .gt v (.str p.AfterId), by simp [afterConds, hp, hv, h], rfl,
        by simp only [h, if_true, keysetCond_gt_iff]⟩
    · exact ⟨keysetCond p.SortBy .lt v (.str p.AfterId), by simp [afterConds, hp, hv, h], rfl,
        by simp only [h, if_false, keysetCond_lt_iff]⟩
  · by_cases h : q.SortOrder = SortOrderAsc
    · exact ⟨keysetCond q.SortBy .lt w (.str q.BeforeId), by simp [beforeConds, hq, hw, h], rfl,
        by simp only [h, if_true, keysetCond_lt_iff]⟩
    · exact ⟨keysetCond q.SortBy .gt w (.str q.BeforeId), by simp [beforeConds, hq, hw, h], rfl,
        by simp only [h, if_false, keysetCond_gt_iff]⟩

/-! ## The order of the request -/

theorem nullBot_some_lt (x y : Value) : nullBot (some x) < nullBot (some y) ↔ x < y :=
  WithBot.coe_lt_coe

theorem nullBot_some_inj (x y : Value) : nullBot (some x) = nullBot (some y) ↔ x = y :=
  WithBot.coe_inj

theorem pairAbove_iff (col : String) (t r : Tenant) (v x : Value) (hr : r.column col = some v)
    (ht : t.column col = some x) :
    PairAbove col t v r.tenantId ↔ sortKey col r < sortKey col t := by
  simp only [PairAbove, sortKey, hr, ht, Option.some.injEq, exists_eq_left', Prod.Lex.lt_iff,
    nullBot_some_lt, nullBot_some_inj]

theorem pairBelow_iff (col : String) (t r : Tenant) (v x : Value) (hr : r.column col = some v)
    (ht : t.column col = some x) :
    PairBelow col t v r.tenantId ↔ sortKey col t < sortKey col r := by
  simp only [PairBelow, sortKey, hr, ht, Option.some.injEq, exists_eq_left', Prod.Lex.lt_iff,
    nullBot_some_lt, nullBot_some_inj]

theorem keyLt_asc_iff (x y : Option Value) : keyLt .asc x y = true ↔ nullBot x < nullBot y :=
  nullLt_iff x y

theorem keyLt_desc_iff (x y : Option Value) : keyLt .desc x y = true ↔ nullBot y < nullBot x :=
  nullLt_iff y x

theorem nullBot_str_lt (a b : String) :
    nullBot (some (.str a)) < nullBot (some (.str b)) ↔ a < b := by
  rw [nullBot_some_lt, Value.str_lt_str]

/-- The order of ORDER BY on the keys of the request is the lexicographic order
of the pairs (sortBy value, tenantId), NULL first, upwards or downwards. -/
theorem rowLe_planKeys_iff (p : ListParams) (a b : Tenant) :
    rowLe (planKeys p) a b = true ↔ ¬ Before p b a := by
  unfold planKeys Before dirOf
  by_cases hs : p.SortBy = "tenantId" <;> by_cases ho : p.SortOrder = SortOrderAsc <;>
    simp only [hs, ho, ne_eq, not_true_eq_false, not_false_eq_true, if_true, if_false, rowLe,
      Bool.or_eq_true, Bool.and_eq_true, Bool.not_eq_true', Bool.eq_false_iff, keyLt_asc_iff,
      keyLt_desc_iff, Tenant.column_tenantId, sortKey, Prod.Lex.lt_iff, nullBot_str_lt, and_true,
      nullBot_some_inj, Value.str.injEq, not_lt, not_or, not_and]
  · constructor
    · rintro (h | h)
      · exact ⟨h.le, fun _ => h.le⟩
      · exact ⟨h, fun _ => h⟩
    · rintro ⟨h, _⟩
      exact Or.inr h
  · constructor
    · rintro (h | h)
      · exact ⟨h.le, fun _ => h.le⟩
      · exact ⟨h, fun _ => h⟩
    · rintro ⟨h, _⟩
      exact Or.inr h
  · constructor
    · rintro (h | ⟨h1, h2⟩)
      · exact ⟨h.le, fun e => absurd e (ne_of_gt h)⟩
      · refine ⟨h1, fun _ => ?_⟩
        rcases h2 with h2 | h2
        · exact h2.le
        · exact h2
    · rintro ⟨h1, h2⟩
      rcases lt_or_eq_of_le h1 with h | h
      · exact Or.inl h
      · exact Or.inr ⟨h1, Or.inr (h2 h.symm)⟩
  · constructor
    · rintro (h | ⟨h1, h2⟩)
      · exact ⟨h.le, fun e => absurd e (ne_of_gt h)⟩
      · refine ⟨h1, fun _ => ?_⟩
        rcases h2 with h2 | h2
        · exact h2.le
        · exact h2
    · rintro ⟨h1, h2⟩
      rcases lt_or_eq_of_le h1 with h | h
      · exact Or.inl h
      · exact Or.inr ⟨h1, Or.inr (h2 h.symm)⟩

theorem Before.asymm (p : ListParams) (a b : Tenant) (h : Before p a b) : ¬ Before p b a := by
  unfold Before at *
  by_cases ho : p.SortOrder = SortOrderAsc <;> simp only [ho, if_true, if_false] at * <;>
    exact lt_asymm h

theorem Before.irrefl (p : ListParams) (a : Tenant) : ¬ Before p a a :=
  fun h => Before.asymm p a a h h

theorem Before.of_rowLe (p : ListParams) (a b : Tenant) (h : rowLe (planKeys p) a b = true)
    (hne : sortKey p.SortBy a ≠ sortKey p.SortBy b) : Before p a b := by
  have h2 := (rowLe_planKeys_iff p a b).mp h
  unfold Before at *
  by_cases ho : p.SortOrder = SortOrderAsc <;> simp only [ho, if_true, if_false, not_lt] at *
  · exact lt_of_le_of_ne h2 hne
  · exact lt_of_le_of_ne h2 (Ne.symm hne)

/-- The forward cursor of row `r` selects the rows that come after `r`. -/
theorem afterConds_cursorAfter (p : ListParams) (r t : Tenant) (v x : Value)
    (hid : r.tenantId ≠ "") (hr : r.column p.SortBy = some v) (ht : t.column p.SortBy = some x) :
    condsHold (afterConds (cursorAfter p r)) t = true ↔ Before p r t := by
  unfold Before
  by_cases ho : p.SortOrder = SortOrderAsc
  · simp only [afterConds, cursorAfter, hid, hr, ho, ne_eq, not_false_eq_true, if_true, condsHold,
      List.all_cons, List.all_nil, Bool.and_true, decide_eq_true_eq, keysetCond_gt_iff]
    exact pairAbove_iff p.SortBy t r v x hr ht
  · simp only [afterConds, cursorAfter, hid, hr, ho, ne_eq, not_false_eq_true, if_true, if_false,
      condsHold, List.all_cons, List.all_nil, Bool.and_true, decide_eq_true_eq, keysetCond_lt_iff]
    exact pairBelow_iff p.SortBy t r v x hr ht

/-- The backward cursor of row `r` selects the rows that come before `r`. -/
theorem beforeConds_cursorBefore (p : ListParams) (r t : Tenant) (v x : Value)
    (hid : r.tenantId ≠ "") (hr : r.column p.SortBy = some v) (ht : t.column p.SortBy = some x) :
    condsHold (beforeConds (cursorBefore p r)) t = true ↔ Before p t r := by
  unfold Before
  by_cases ho : p.SortOrder = SortOrderAsc
  · simp only [beforeConds, cursorBefore, hid, hr, ho, ne_eq, not_false_eq_true, if_true,
      condsHold, List.all_cons, List.all_nil, Bool.and_true, decide_eq_true_eq, keysetCond_lt_iff]
    exact pairBelow_iff p.SortBy t r v x hr ht
  · simp only [beforeConds, cursorBefore, hid, hr, ho, ne_eq, not_false_eq_true, if_true,
      if_false, condsHold, List.all_cons, List.all_nil, Bool.and_true, decide_eq_true_eq,
      keysetCond_gt_iff]
    exact pairAbove_iff p.SortBy t r v x hr ht

theorem traversal_perm (db : Tenants) (p : ListParams) : (traversal db p).Perm (liveRows db) :=
  List.perm_insertionSort _ _

/-- With pairwise distinct pairs (sortBy value, tenantId), every row of the
traversal comes strictly before the rows after it. -/
theorem traversal_pairwise (db : Tenants) (p : ListParams)
    (hd : (liveRows db).Pairwise (fun a b => sortKey p.SortBy a ≠ sortKey p.SortBy b)) :
    (traversal db p).Pairwise (Before p) := by
  haveI := RowLe.isTotal (planKeys p)
  haveI := RowLe.isTrans (planKeys p)
  have h1 : (traversal db p).Pairwise (RowLe (planKeys p)) := List.sorted_insertionSort _ _
  have h2 : (traversal db p).Pairwise (fun a b => sortKey p.SortBy a ≠ sortKey p.SortBy b) :=
    ((traversal_perm db p).pairwise_iff (fun {a b} h => Ne.symm h)).mpr hd
  exact (h1.and h2).imp (fun {a b} h => Before.of_rowLe p a b h.1 h.2)

theorem filter_eq_suffix (f : Tenant → Bool) (pre suf : List Tenant) (r : Tenant)
    (hpre : ∀ t ∈ pre, f t = false) (hr : f r = false) (hsuf : ∀ t ∈ suf, f t = true) :
    (pre ++ r :: suf).filter f = suf := by
  rw [List.filter_append, List.filter_cons_of_neg (by simp [hr])]
  rw [List.filter_eq_nil_iff.mpr (fun t ht => by simp [hpre t ht]), List.nil_append]
  exact List.filter_eq_self.mpr hsuf

theorem filter_eq_init (f : Tenant → Bool) (pre suf : List Tenant) (r : Tenant)
    (hpre : ∀ t ∈ pre, f t = true) (hr : f r = false) (hsuf : ∀ t ∈ suf, f t = false) :
    (pre ++ r :: suf).filter f = pre := by
  rw [List.filter_append, List.filter_cons_of_neg (by simp [hr])]
  rw [List.filter_eq_self.mpr hpre]
  rw [List.filter_eq_nil_iff.mpr (fun t ht => by simp [hsuf t ht]), List.append_nil]

/-! ## Pages -/

theorem sortKey_ne (col : String) (a b : Tenant)
    (h : (a.column col, a.tenantId) ≠ (b.column col, b.tenantId)) :
    sortKey col a ≠ sortKey col b := by
  intro e
  apply h
  have e2 : (nullBot (a.column col), a.tenantId) = (nullBot (b.column col), b.tenantId) := e
  rw [Prod.mk.injEq] at e2 ⊢
  refine ⟨?_, e2.2⟩
  have inj : ∀ x y : Option Value, nullBot x = nullBot y → x = y := by
    intro x y hxy
    cases x <;> cases y
    · rfl
    · exact absurd hxy (WithBot.bot_ne_coe)
    · exact absurd hxy (WithBot.coe_ne_bot)
    · exact congrArg some (WithBot.coe_inj.mp hxy)
  exact inj _ _ e2.1

theorem Pageable.pairwise (db : Tenants) (p : ListParams) (h : Pageable db p) :
    (traversal db p).Pairwise (Before p) :=
  traversal_pairwise db p (h.2.imp (fun {a b} hab => sortKey_ne p.SortBy a b hab))

theorem Pageable.column (db : Tenants) (p : ListParams) (h : Pageable db p) (t : Tenant)
    (ht : t ∈ traversal db p) : ∃ x, t.column p.SortBy = some x :=
  Option.isSome_iff_exists.mp (h.1 t ((traversal_perm db p).mem_iff.mp ht)).1

theorem Pageable.tenantId (db : Tenants) (p : ListParams) (h : Pageable db p) (t : Tenant)
    (ht : t ∈ traversal db p) : t.tenantId ≠ "" :=
  (h.1 t ((traversal_perm db p).mem_iff.mp ht)).2

/-- The page after row `r` of the traversal: the rows that follow `r`, cut at the limit. -/
theorem list_cursorAfter (db : Tenants) (p : ListParams) (hw : WellFormed p)
    (hlim : 0 ≤ p.Limit) (hq : p.Query = "") (hb : p.BeforeId = "") (hpg : Pageable db p)
    (pre suf : List Tenant) (r : Tenant) (hL : traversal db p = pre ++ r :: suf) :
    MySQLRepository.List db (cursorAfter p r) = .ok (suf.take p.Limit.toNat) := by
  have hpw := Pageable.pairwise db p hpg
  rw [hL] at hpw
  have hmem : ∀ t, t ∈ pre ++ r :: suf → t ∈ traversal db p := fun t ht => hL ▸ ht
  have hrm : r ∈ traversal db p := hmem r (by simp)
  obtain ⟨v, hv⟩ := Pageable.column db p hpg r hrm
  have hid := Pageable.tenantId db p hpg r hrm
  have hiff : ∀ t, t ∈ pre ++ r :: suf →
      (condsHold (afterConds (cursorAfter p r)) t = true ↔ Before p r t) := by
    intro t ht
    obtain ⟨x, hx⟩ := Pageable.column db p hpg t (hmem t ht)
    exact afterConds_cursorAfter p r t v x hid hv hx
  have hconds : (listPlan (cursorAfter p r)).conds = afterConds (cursorAfter p r) := by
    simp [listPlan, searchConds, beforeConds, cursorAfter, hq, hb]
  have hlist := list_eq_ok db (cursorAfter p r) hw.1 hw.2 hlim
  have htr : traversal db (cursorAfter p r) = pre ++ r :: suf := hL
  rw [hlist, htr, hconds]
  have hp2 := List.pairwise_append.mp hpw
  have hcons := List.pairwise_cons.mp hp2.2.1
  rw [filter_eq_suffix]
  · rfl
  · intro t ht
    have hbt : Before p t r := hp2.2.2 t ht r (List.mem_cons_self _ _)
    have := mt (hiff t (by simp [ht])).mp (Before.asymm p t r hbt)
    simpa using this
  · have := mt (hiff r (by simp)).mp (Before.irrefl p r)
    simpa using this
  · intro t ht
    exact (hiff t (by simp [ht])).mpr (hcons.1 t ht)

/-- The page before row `r` of the traversal, as `List` answers it: the rows
that precede `r`, from the start of the traversal, cut at the limit. -/
theorem list_cursorBefore (db : Tenants) (p : ListParams) (hw : WellFormed p)
    (hlim : 0 ≤ p.Limit) (hq : p.Query = "") (ha : p.AfterId = "") (hpg : Pageable db p)
    (pre suf : List Tenant) (r : Tenant) (hL : traversal db p = pre ++ r :: suf) :
    MySQLRepository.List db (cursorBefore p r) = .ok (pre.take p.Limit.toNat) := by
  have hpw := Pageable.pairwise db p hpg
  rw [hL] at hpw
  have hmem : ∀ t, t ∈ pre ++ r :: suf → t ∈ traversal db p := fun t ht => hL ▸ ht
  have hrm : r ∈ traversal db p := hmem r (by simp)
  obtain ⟨v, hv⟩ := Pageable.column db p hpg r hrm
  have hid := Pageable.tenantId db p hpg r hrm
  have hiff : ∀ t, t ∈ pre ++ r :: suf →
      (condsHold (beforeConds (cursorBefore p r)) t = true ↔ Before p t r) := by
    intro t ht
    obtain ⟨x, hx⟩ := Pageable.column db p hpg t (hmem t ht)
    exact beforeConds_cursorBefore p r t v x hid hv hx
  have hconds : (listPlan (cursorBefore p r)).conds = beforeConds (cursorBefore p r) := by
    simp [listPlan, searchConds, afterConds, cursorBefore, hq, ha]
  have hlist := list_eq_ok db (cursorBefore p r) hw.1 hw.2 hlim
  have htr : traversal db (cursorBefore p r) = pre ++ r :: suf := hL
  rw [hlist, htr, hconds]
  have hp2 := List.pairwise_append.mp hpw
  have hcons := List.pairwise_cons.mp hp2.2.1
  rw [filter_eq_init]
  · rfl
  · intro t ht
    exact (hiff t (by simp [ht])).mpr (hp2.2.2 t ht r (List.mem_cons_self _ _))
  · have := mt (hiff r (by simp)).mp (Before.irrefl p r)
    simpa using this
  · intro t ht
    have := mt (hiff t (by simp [ht])).mp (Before.asymm p r t (hcons.1 t ht))
    simpa using this

/-- The first page: the start of the traversal, cut at the limit. -/
theorem list_noCursor (db : Tenants) (p : ListParams) (hw : WellFormed p)
    (hlim : 0 ≤ p.Limit) (hq : p.Query = "") (ha : p.AfterId = "") (hb : p.BeforeId = "") :
    MySQLRepository.List db p = .ok ((traversal db p).take p.Limit.toNat) := by
  have hconds : (listPlan p).conds = [] := by
    simp [listPlan, searchConds, afterConds, beforeConds, hq, ha, hb]
  rw [list_eq_ok db p hw.1 hw.2 hlim, hconds]
  rw [show List.filter (condsHold []) (traversal db p) = traversal db p from
    List.filter_eq_self.mpr (fun _ _ => rfl)]

theorem cursorAfter_cursorAfter (p : ListParams) (r s : Tenant) :
    cursorAfter (cursorAfter p r) s = cursorAfter p s := rfl

theorem getLast?_take_eq (l : List Tenant) (k : Nat) (hk : 0 < k) (hl : l ≠ []) :
    ∃ init last, l.take k = init ++ [last] ∧ (l.take k).getLast? = some last := by
  have hne : l.take k ≠ [] := by
    cases l with
    | nil => exact absurd rfl hl
    | cons a l => cases k with
      | zero => exact absurd hk (lt_irrefl 0)
      | succ k => simp
  refine ⟨(l.take k).dropLast, (l.take k).getLast hne, ?_, ?_⟩
  · exact (List.dropLast_append_getLast hne).symm
  · exact List.getLast?_eq_getLast _ hne

/-- Paging on from row `r`: with enough calls the pages add up to the rows after `r`. -/
theorem forwardPages_cursorAfter (db : Tenants) (p : ListParams) (hw : WellFormed p)
    (hlim : 1 ≤ p.Limit) (hq : p.Query = "") (hb : p.BeforeId = "") (hpg : Pageable db p)
    (fuel : Nat) :
    ∀ (pre suf : List Tenant) (r : Tenant), traversal db p = pre ++ r :: suf →
      suf.length < fuel → forwardPages fuel db (cursorAfter p r) = suf := by
  have hlim0 : 0 ≤ p.Limit := by omega
  have hk : 0 < p.Limit.toNat := by omega
  induction fuel with
  | zero => intro pre suf r _ h; exact absurd h (Nat.not_lt_zero _)
  | succ n ih =>
    intro pre suf r hL hlen
    have hpage := list_cursorAfter db p hw hlim0 hq hb hpg pre suf r hL
    rw [forwardPages, hpage]
    by_cases hs : suf = []
    · subst hs; simp
    · obtain ⟨init, last, h1, h2⟩ := getLast?_take_eq suf p.Limit.toNat hk hs
      simp only [h2]
      rw [cursorAfter_cursorAfter]
      have hsplit : traversal db p = (pre ++ r :: init) ++ last :: suf.drop p.Limit.toNat := by
        rw [hL]
        conv_lhs => rw [← List.take_append_drop p.Limit.toNat suf, h1]
        simp
      have hpos : 0 < suf.length := List.length_pos.mpr hs
      have hlen2 : (suf.drop p.Limit.toNat).length < n := by
        rw [List.length_drop]; omega
      rw [ih _ _ last hsplit hlen2]
      exact List.take_append_drop _ _

/-- With enough calls the forward traversal reads the whole of `traversal`. -/
theorem forwardPages_eq_traversal (db : Tenants) (p : ListParams) (hw : WellFormed p)
    (hlim : 1 ≤ p.Limit) (hq : p.Query = "") (ha : p.AfterId = "") (hb : p.BeforeId = "")
    (hpg : Pageable db p) (fuel : Nat) (hfuel : (liveRows db).length < fuel) :
    forwardPages fuel db p = traversal db p := by
  have hlim0 : 0 ≤ p.Limit := by omega
  have hk : 0 < p.Limit.toNat := by omega
  have hlen : (traversal db p).length = (liveRows db).length := (traversal_perm db p).length_eq
  cases fuel with
  | zero => exact absurd hfuel (Nat.not_lt_zero _)
  | succ n =>
    rw [forwardPages, list_noCursor db p hw hlim0 hq ha hb]
    by_cases hs : traversal db p = []
    · rw [hs]; simp
    · obtain ⟨init, last, h1, h2⟩ := getLast?_take_eq (traversal db p) p.Limit.toNat hk hs
      simp only [h2]
      have hsplit : traversal db p = init ++ last :: (traversal db p).drop p.Limit.toNat := by
        conv_lhs => rw [← List.take_append_drop p.Limit.toNat (traversal db p), h1]
        simp
      have hpos : 0 < (traversal db p).length := List.length_pos.mpr hs
      have hlen2 : ((traversal db p).drop p.Limit.toNat).length < n := by
        rw [List.length_drop]; omega
      rw [forwardPages_cursorAfter db p hw hlim hq hb hpg n _ _ last hsplit hlen2]
      exact List.take_append_drop _ _

/-! ## Pagination completeness -/

theorem scenario_wellFormed : WellFormed scenarioParams := ⟨by decide, Or.inl rfl⟩

theorem scenario_pageable : Pageable scenarioRows scenarioParams := by
  unfold Pageable
  decide

/-- C1 (amended): on a snapshot whose live rows have a sortBy value that is not
NULL, a tenantId that is not empty and pairwise distinct pairs
(sortBy value, tenantId), for a column of the table, either direction and every
limit of at least 1, the pages of the forward traversal (no cursor first, then
AfterId and AfterValue of the last row of the previous page), once more calls
are allowed than there are live rows, add up to exactly the live rows, each
strictly before the next in the order of the request. -/
theorem list_pagination_complete (db : Tenants) (p : ListParams) (hw : WellFormed p)
    (hlim : 1 ≤ p.Limit) (hq : p.Query = "") (ha : p.AfterId = "") (hb : p.BeforeId = "")
    (hpg : Pageable db p) (fuel : Nat) (hfuel : (liveRows db).length < fuel) :
    (forwardPages fuel db p).Perm (liveRows db) ∧
      (forwardPages fuel db p).Pairwise (Before p) := by
  rw [forwardPages_eq_traversal db p hw hlim hq ha hb hpg fuel hfuel]
  exact ⟨traversal_perm db p, Pageable.pairwise db p hpg⟩

theorem list_pagination_complete_witness :
    (WellFormed scenarioParams ∧ Pageable scenarioRows scenarioParams ∧
      (liveRows scenarioRows).length < 4) ∧
    ((forwardPages 4 scenarioRows scenarioParams).Perm (liveRows scenarioRows) ∧
      (forwardPages 4 scenarioRows scenarioParams).Pairwise (Before scenarioParams)) ∧
    (MySQLRepository.List scenarioRows scenarioParams).toOption.map (List.map Tenant.tenantId)
      = some ["a", "b"] ∧
    (MySQLRepository.List scenarioRows
        { scenarioParams with AfterId := "b", AfterValue := some (.int 1) }).toOption.map
      (List.map Tenant.tenantId) = some ["c"] :=
  ⟨⟨scenario_wellFormed, scenario_pageable, by decide⟩,
    list_pagination_complete scenarioRows scenarioParams scenario_wellFormed (by decide) rfl rfl
      rfl scenario_pageable 4 (by decide),
    by decide, by decide⟩

theorem nullName_pages (fuel : Nat) :
    (forwardPages fuel nullNameRows byNameParams).length ≤ 1 := by
  have h1 : MySQLRepository.List nullNameRows byNameParams = .ok [mkTenant 1 "t2" none 1] := by
    rfl
  have h2 : MySQLRepository.List nullNameRows
      (cursorAfter byNameParams (mkTenant 1 "t2" none 1)) = .ok [] := by rfl
  have h3 : ∀ n, forwardPages n nullNameRows
      (cursorAfter byNameParams (mkTenant 1 "t2" none 1)) = [] := by
    intro n
    cases n with
    | zero => rfl
    | succ n => simp [forwardPages, h2]
  cases fuel with
  | zero => simp [forwardPages]
  | succ n => simp [forwardPages, h1, h3]

theorem emptyId_pages (fuel : Nat) :
    ∀ t ∈ forwardPages fuel emptyIdRows byIdParams, t = mkTenant 1 "" (some "x") 1 := by
  have h1 : MySQLRepository.List emptyIdRows byIdParams = .ok [mkTenant 1 "" (some "x") 1] := by
    rfl
  have h2 : MySQLRepository.List emptyIdRows
      (cursorAfter byIdParams (mkTenant 1 "" (some "x") 1)) = .ok [mkTenant 1 "" (some "x") 1] := by
    rfl
  have h3 : ∀ n, ∀ t ∈ forwardPages n emptyIdRows
      (cursorAfter byIdParams (mkTenant 1 "" (some "x") 1)), t = mkTenant 1 "" (some "x") 1 := by
    intro n
    induction n with
    | zero => simp [forwardPages]
    | succ n ih =>
      intro t ht
      simp only [forwardPages, h2, List.getLast?_singleton, cursorAfter_cursorAfter,
        List.singleton_append, List.mem_cons] at ht
      rcases ht with rfl | ht
      · rfl
      · exact ih t ht
  cases fuel with
  | zero => simp [forwardPages]
  | succ n =>
    intro t ht
    simp only [forwardPages, h1, List.getLast?_singleton, List.singleton_append,
      List.mem_cons] at ht
    rcases ht with rfl | ht
    · rfl
    · exact h3 n t ht

/-- C1 as stated fails: with a NULL name in the sort column the traversal stops
after the first page, and with an empty tenantId the first page is returned
again and again; however many calls are allowed, the pages are not the live
rows. -/
theorem list_pagination_incomplete :
    (∀ fuel, ¬ (forwardPages fuel nullNameRows byNameParams).Perm (liveRows nullNameRows)) ∧
    (∀ fuel, ¬ (forwardPages fuel emptyIdRows byIdParams).Perm (liveRows emptyIdRows)) := by
  constructor
  · intro fuel h
    have h1 := nullName_pages fuel
    rw [h.length_eq] at h1
    exact absurd h1 (by decide)
  · intro fuel h
    have hm : mkTenant 2 "a" (some "y") 2 ∈ forwardPages fuel emptyIdRows byIdParams :=
      h.mem_iff.mpr (by decide)
    exact absurd (emptyId_pages fuel _ hm) (by decide)

/-! ## Paging backward -/

theorem fourRows_wellFormed : WellFormed twoByIdParams := ⟨by decide, Or.inl rfl⟩

theorem fourRows_pageable : Pageable fourRows twoByIdParams := by
  unfold Pageable
  decide

/-- C7 (amended): on a snapshot a cursor can page through, for a column of the
table, either direction and every limit of at least 1, if `r` is a row of the
forward traversal, then `List` with BeforeId and BeforeValue taken from `r`
returns the first (up to limit) rows of the traversal that precede `r`, in the
order of the traversal. -/
theorem list_before_cursor (db : Tenants) (p : ListParams) (hw : WellFormed p)
    (hlim : 1 ≤ p.Limit) (hq : p.Query = "") (ha : p.AfterId = "") (hb : p.BeforeId = "")
    (hpg : Pageable db p) (fuel : Nat) (hfuel : (liveRows db).length < fuel)
    (pre suf : List Tenant) (r : Tenant) (hr : forwardPages fuel db p = pre ++ r :: suf) :
    MySQLRepository.List db (cursorBefore p r) = .ok (pre.take p.Limit.toNat) := by
  rw [forwardPages_eq_traversal db p hw hlim hq ha hb hpg fuel hfuel] at hr
  exact list_cursorBefore db p hw (by omega) hq ha hpg pre suf r hr

theorem list_before_cursor_witness :
    (WellFormed twoByIdParams ∧ Pageable fourRows twoByIdParams ∧
      (liveRows fourRows).length < 5 ∧
      forwardPages 5 fourRows twoByIdParams =
        [mkTenant 2 "a" (some "n1") 1, mkTenant 4 "b" (some "n2") 2, mkTenant 1 "c" (some "n3") 3]
          ++ mkTenant 3 "d" (some "n4") 4 :: []) ∧
    MySQLRepository.List fourRows (cursorBefore twoByIdParams (mkTenant 3 "d" (some "n4") 4)) =
      .ok ([mkTenant 2 "a" (some "n1") 1, mkTenant 4 "b" (some "n2") 2,
        mkTenant 1 "c" (some "n3") 3].take twoByIdParams.Limit.toNat) :=
  ⟨⟨fourRows_wellFormed, fourRows_pageable, by decide, by decide⟩,
    list_before_cursor fourRows twoByIdParams fourRows_wellFormed (by decide) rfl rfl rfl
      fourRows_pageable 5 (by decide) _ [] _ (by decide)⟩

/-- C7 as stated fails: paging backward from d with limit 2 over a, b, c, d
returns a, b (the start of the traversal, in forward order), not c, b; and a
row with a NULL sort value that precedes the cursor row is not returned. -/
theorem list_before_cursor_not_reverse :
    ((forwardPages 5 fourRows twoByIdParams).map Tenant.tenantId = ["a", "b", "c", "d"] ∧
      (MySQLRepository.List fourRows
        (cursorBefore twoByIdParams (mkTenant 3 "d" (some "n4") 4))).toOption.map
        (List.map Tenant.tenantId) = some ["a", "b"]) ∧
    ((forwardPages 3 nullFirstRows byNameParams).map Tenant.tenantId = ["t1", "t2"] ∧
      (MySQLRepository.List nullFirstRows
        (cursorBefore byNameParams (mkTenant 2 "t2" (some "a") 2))).toOption.map
        (List.map Tenant.tenantId) = some []) := by
  decide

/-! ## Ordering and tie-break -/

/-- When `List` returns rows, the store read the ORDER BY clause as some sort
keys, the limit is not negative, and the rows are the rows passing WHERE,
sorted by those keys and cut at the limit. -/
theorem list_ok_inv (db : Tenants) (p : ListParams) (rows : Tenants)
    (h : MySQLRepository.List db p = .ok rows) :
    ∃ keys, parseOrderBy (keysText (orderKeys p)) = some keys ∧ 0 ≤ p.Limit ∧
      rows = ((db.filter (passes (listPlan p).conds)).insertionSort (RowLe keys)).take
        p.Limit.toNat := by
  unfold MySQLRepository.List DB.SelectContext at h
  have hl : (listPlan p).limit = .int p.Limit := rfl
  have ho : (listPlan p).orderBy = orderKeys p := rfl
  rw [hl, ho] at h
  cases hk : parseOrderBy (keysText (orderKeys p)) with
  | none => simp [hk] at h
  | some keys =>
    simp only [hk] at h
    by_cases hc : (List.all (listPlan p).conds fun c => c.columns.all isColumn) = true ∧
        0 ≤ p.Limit
    · rw [if_pos hc] at h
      exact ⟨keys, rfl, hc.2, (Except.ok.inj h).symm⟩
    · rw [if_neg hc] at h
      simp at h

/-- C8 (amended): for every request the ordering clause of the query is
`ORDER BY <SortBy> <SortOrder>, tenantId <SortOrder>` when SortBy is not
tenantId and `ORDER BY tenantId <SortOrder>` when it is, followed by
`LIMIT ?`; and when SortBy is a column of the table and SortOrder is ASC or
DESC, of two returned rows with equal sortBy value the earlier has the smaller
tenantId for ASC and the larger one for DESC. -/
theorem list_order_tiebreak (db : Tenants) (p : ListParams) :
    (listQuery p).1 = (listWhere p).1 ++
      (if p.SortBy ≠ "tenantId" then
        " ORDER BY " ++ p.SortBy ++ " " ++ p.SortOrder ++ ", tenantId " ++ p.SortOrder
      else " ORDER BY tenantId " ++ p.SortOrder) ++ " LIMIT ?" ∧
    (WellFormed p → ∀ rows, MySQLRepository.List db p = .ok rows →
      rows.Pairwise (fun a b => a.column p.SortBy = b.column p.SortBy →
        if p.SortOrder = SortOrderAsc then a.tenantId ≤ b.tenantId
        else b.tenantId ≤ a.tenantId)) := by
  constructor
  · unfold listQuery listOrder
    by_cases hs : p.SortBy = "tenantId" <;>
      simp only [hs, ne_eq, not_true_eq_false, not_false_eq_true, if_true, if_false,
        String.append_assoc]
  · intro hw rows h
    obtain ⟨_, _, hlim, _⟩ := list_ok_inv db p rows h
    haveI := RowLe.isTotal (planKeys p)
    haveI := RowLe.isTrans (planKeys p)
    rw [list_eq_ok db p hw.1 hw.2 hlim] at h
    have hrows : rows =
        ((traversal db p).filter (condsHold (listPlan p).conds)).take p.Limit.toNat :=
      (Except.ok.inj h).symm
    have hsorted : (traversal db p).Pairwise (RowLe (planKeys p)) :=
      List.sorted_insertionSort _ _
    have hsub : rows.Sublist (traversal db p) := by
      rw [hrows]
      exact (List.take_sublist _ _).trans (List.filter_sublist _)
    refine (hsorted.sublist hsub).imp ?_
    intro a b hab heq
    have hnb := (rowLe_planKeys_iff p a b).mp hab
    unfold Before sortKey at hnb
    by_cases ho : p.SortOrder = SortOrderAsc
    · simp only [ho, if_true, Prod.Lex.lt_iff, heq, lt_self_iff_false, true_and, false_or,
        not_lt] at hnb ⊢
      exact hnb
    · simp only [ho, if_false, Prod.Lex.lt_iff, heq, lt_self_iff_false, true_and, false_or,
        not_lt] at hnb ⊢
      exact hnb

theorem list_order_tiebreak_witness :
    (WellFormed scenarioParams ∧
      MySQLRepository.List scenarioRows scenarioParams =
        .ok [mkTenant 1 "a" none 1, mkTenant 2 "b" none 1]) ∧
      [mkTenant 1 "a" none 1, mkTenant 2 "b" none 1].Pairwise
        (fun a b => a.column scenarioParams.SortBy = b.column scenarioParams.SortBy →
          if scenarioParams.SortOrder = SortOrderAsc then a.tenantId ≤ b.tenantId
          else b.tenantId ≤ a.tenantId) :=
  ⟨⟨scenario_wellFormed, rfl⟩,
    (list_order_tiebreak scenarioRows scenarioParams).2 scenario_wellFormed _ rfl⟩

/-- The store reads keywords and column names in any letter case, a position
in the select list, and an omitted direction as ascending: the rows of the
scenario come back by creation time, then tenantId, for each such spelling. -/
theorem list_reads_order_spellings :
    MySQLRepository.List scenarioRows lowerCaseParams =
      .ok [mkTenant 1 "a" none 1, mkTenant 2 "b" none 1, mkTenant 3 "c" none 2] ∧
    MySQLRepository.List scenarioRows { lowerCaseParams with SortBy := "5", SortOrder := "" } =
      .ok [mkTenant 1 "a" none 1, mkTenant 2 "b" none 1, mkTenant 3 "c" none 2] ∧
    MySQLRepository.List scenarioRows { lowerCaseParams with SortOrder := "Desc" } =
      .ok [mkTenant 3 "c" none 2, mkTenant 2 "b" none 1, mkTenant 1 "a" none 1] :=
  ⟨rfl, rfl, rfl⟩

/-- C8 as stated fails for a SortOrder that is more than a direction: with
SortOrder `ASC, name DESC` the clause reads `ORDER BY createdAt ASC, name
DESC, tenantId ASC, name DESC`, and the three rows a, b, c with equal
createdAt come back ordered by name, as b, a, c: neither ascending nor
descending by tenantId. -/
theorem list_order_tiebreak_injected :
    (listQuery injectedOrderParams).1 = selectHead ++
      " ORDER BY createdAt ASC, name DESC, tenantId ASC, name DESC LIMIT ?" ∧
    MySQLRepository.List sameTimeRows injectedOrderParams =
      .ok [mkTenant 2 "b" (some "z") 1, mkTenant 1 "a" (some "m") 1,
        mkTenant 3 "c" (some "k") 1] ∧
    (∀ t ∈ sameTimeRows, t.column injectedOrderParams.SortBy = some (.int 1)) :=
  ⟨rfl, rfl, by decide⟩

/-! ## The search filter -/

theorem likeTokens_cons_plain (c : Char) (p : List Char) (h1 : c ≠ '%') (h2 : c ≠ '_')
    (h3 : c ≠ '\\') : likeTokens (c :: p) = .lit c :: likeTokens p := by
  rw [likeTokens.eq_def]
  simp only [h1, h2, h3, if_false]

theorem likeTokens_percent (p : List Char) : likeTokens ('%' :: p) = .any :: likeTokens p := by
  rw [likeTokens.eq_def]
  simp only [show ('%' : Char) ≠ '\\' from by decide, if_false, if_true]

theorem likeTokens_plain_append (q r : List Char) (hq : Plain q) :
    likeTokens (q ++ r) = q.map LikeTok.lit ++ likeTokens r := by
  induction q with
  | nil => rfl
  | cons c q ih =>
    have hc := hq c (List.mem_cons_self _ _)
    have hq2 : Plain q := fun d hd => hq d (List.mem_cons_of_mem _ hd)
    rw [List.cons_append, likeTokens_cons_plain _ _ hc.1 hc.2.1 hc.2.2, ih hq2]
    rfl

theorem likeMatch_lits (q : List Char) (ts : List LikeTok) (s : List Char) :
    likeMatch (q.map LikeTok.lit ++ ts) s = true ↔ ∃ r, s = q ++ r ∧ likeMatch ts r = true := by
  induction q generalizing s with
  | nil => simp
  | cons c q ih =>
    cases s with
    | nil => simp [likeMatch]
    | cons d s =>
      show (decide (c = d) && likeMatch (q.map LikeTok.lit ++ ts) s) = true ↔ _
      rw [Bool.and_eq_true, decide_eq_true_eq, ih]
      constructor
      · rintro ⟨hcd, r, hs, h⟩
        exact ⟨r, by rw [hcd, hs]; rfl, h⟩
      · rintro ⟨r, hs, h⟩
        rw [List.cons_append, List.cons.injEq] at hs
        exact ⟨hs.1.symm, r, hs.2, h⟩

theorem anySuffix_iff (f : List Char → Bool) (s : List Char) :
    anySuffix f s = true ↔ ∃ a b, s = a ++ b ∧ f b = true := by
  induction s with
  | nil =>
    simp only [anySuffix]
    constructor
    · intro h; exact ⟨[], [], rfl, h⟩
    · rintro ⟨a, b, hab, h⟩
      have := List.append_eq_nil.mp hab.symm
      rw [this.2] at h; exact h
  | cons c s ih =>
    simp only [anySuffix, Bool.or_eq_true, ih]
    constructor
    · rintro (h | ⟨a, b, rfl, h⟩)
      · exact ⟨[], c :: s, rfl, h⟩
      · exact ⟨c :: a, b, rfl, h⟩
    · rintro ⟨a, b, hab, h⟩
      cases a with
      | nil => left; rw [List.nil_append] at hab; rw [hab]; exact h
      | cons d a =>
        right
        rw [List.cons_append, List.cons.injEq] at hab
        exact ⟨a, b, hab.2, h⟩

theorem likeMatch_any (s : List Char) : likeMatch [.any] s = true := by
  simp only [likeMatch]
  exact (anySuffix_iff _ s).mpr ⟨s, [], by simp, rfl⟩

/-- For a term without special characters, `LIKE '%term%'` is substring search. -/
theorem sqlLike_plain (s q : String) (hq : Plain q.data) :
    sqlLike s ("%" ++ q ++ "%") = true ↔ q.data <:+: s.data := by
  have hpat : ("%" ++ q ++ "%").data = '%' :: (q.data ++ ['%']) := by
    simp only [String.data_append]; rfl
  have htok : likeTokens ('%' :: (q.data ++ ['%'])) =
      .any :: (q.data.map LikeTok.lit ++ [.any]) := by
    rw [likeTokens_percent, likeTokens_plain_append _ _ hq, likeTokens_percent]
    rfl
  unfold sqlLike
  rw [hpat, htok, likeMatch, anySuffix_iff]
  constructor
  · rintro ⟨a, b, hab, h⟩
    obtain ⟨r, hr, _⟩ := (likeMatch_lits _ _ _).mp h
    exact ⟨a, r, by rw [hab, hr, List.append_assoc]⟩
  · rintro ⟨a, r, h⟩
    exact ⟨a, q.data ++ r, by rw [← h, List.append_assoc],
      (likeMatch_lits _ _ _).mpr ⟨r, rfl, likeMatch_any r⟩⟩

theorem Tenant.column_name (t : Tenant) : t.column "name" = t.name.map Value.str :=
  rfl

theorem searchCond_eval (q : String) (hq : Plain q.data) (t : Tenant) :
    (Cond.paren (.or (.like "tenantId" (.str ("%" ++ q ++ "%")))
      (.like "name" (.str ("%" ++ q ++ "%"))))).eval t = some true ↔
      substringMatch q t = true := by
  simp only [Cond.eval, Tenant.column_tenantId, Tenant.column_name, substringMatch,
    Bool.or_eq_true, decide_eq_true_eq, ← sqlLike_plain _ q hq]
  cases hn : t.name with
  | none =>
    cases h1 : sqlLike t.tenantId ("%" ++ q ++ "%") <;> simp [Tri.or]
  | some n =>
    cases h1 : sqlLike t.tenantId ("%" ++ q ++ "%") <;>
      cases h2 : sqlLike n ("%" ++ q ++ "%") <;> simp [Tri.or, h2]

theorem traversal_length_le (db : Tenants) (p : ListParams) :
    (traversal db p).length ≤ db.length := by
  rw [(traversal_perm db p).length_eq]
  exact List.length_filter_le _ _

/-- C9 (amended): without a Query no search predicate is added; for a
non-empty Query without the LIKE characters `%`, `_` and backslash, the
predicate added is `(tenantId LIKE ? OR name LIKE ?)` with both parameters
bound to the term between two `%`, it is TRUE of a row exactly when the term
is a substring of the tenantId or of the name, and the page returned is the
untruncated answer to the same request without Query, filtered by that
substring test in the order it has, cut at the limit. -/
theorem search_filter (db : Tenants) (p : ListParams) (hplain : Plain p.Query.data)
    (hne : p.Query ≠ "") (hw : WellFormed p) (hlim : 0 ≤ p.Limit) :
    searchConds { p with Query := "" } = [] ∧
    (∃ c, searchConds p = [c] ∧ c.text = "(tenantId LIKE ? OR name LIKE ?)" ∧
      c.args = [.str ("%" ++ p.Query ++ "%"), .str ("%" ++ p.Query ++ "%")] ∧
      ∀ t, (c.eval t = some true ↔ substringMatch p.Query t = true)) ∧
    ∃ all, MySQLRepository.List db { p with Query := "", Limit := db.length } = .ok all ∧
      MySQLRepository.List db p =
        .ok ((all.filter (substringMatch p.Query)).take p.Limit.toNat) := by
  refine ⟨rfl, ⟨Cond.paren (.or (.like "tenantId" (.str ("%" ++ p.Query ++ "%")))
      (.like "name" (.str ("%" ++ p.Query ++ "%")))),
    by simp only [searchConds, hne, ne_eq, not_false_eq_true, if_true], rfl, rfl,
    fun t => searchCond_eval p.Query hplain t⟩, ?_⟩
  have h0 := list_eq_ok db { p with Query := "", Limit := db.length } hw.1 hw.2
    (Int.ofNat_nonneg _)
  have htr : traversal db { p with Query := "", Limit := db.length } = traversal db p := rfl
  have hc0 : (listPlan { p with Query := "", Limit := db.length }).conds =
      afterConds p ++ beforeConds p := rfl
  rw [htr, hc0] at h0
  have htake : ((traversal db p).filter (condsHold (afterConds p ++ beforeConds p))).take
      (db.length : Int).toNat = (traversal db p).filter (condsHold (afterConds p ++ beforeConds p)) := by
    apply List.take_of_length_le
    exact le_trans (List.length_filter_le _ _) (by simpa using traversal_length_le db p)
  refine ⟨_, h0.trans (by rw [htake]), ?_⟩
  rw [list_eq_ok db p hw.1 hw.2 hlim, List.filter_filter]
  have hc : (listPlan p).conds =
      Cond.paren (.or (.like "tenantId" (.str ("%" ++ p.Query ++ "%")))
        (.like "name" (.str ("%" ++ p.Query ++ "%")))) :: (afterConds p ++ beforeConds p) := by
    simp only [listPlan, searchConds, hne, ne_eq, not_false_eq_true, if_true, List.append_assoc,
      List.singleton_append, List.cons_append, List.nil_append]
  rw [hc]
  congr 2
  apply List.filter_congr
  intro t _
  rw [condsHold, List.all_cons, ← condsHold]
  congr 1
  rw [Bool.eq_iff_iff, decide_eq_true_eq]
  exact searchCond_eval p.Query hplain t

theorem search_wellFormed : WellFormed searchParams := ⟨by decide, Or.inl rfl⟩

theorem search_plain : Plain searchParams.Query.data := by
  unfold Plain
  decide

theorem search_filter_witness :
    (Plain searchParams.Query.data ∧ searchParams.Query ≠ "" ∧ WellFormed searchParams ∧
      0 ≤ searchParams.Limit) ∧
    (searchConds { searchParams with Query := "" } = [] ∧
    (∃ c, searchConds searchParams = [c] ∧ c.text = "(tenantId LIKE ? OR name LIKE ?)" ∧
      c.args = [.str ("%" ++ searchParams.Query ++ "%"), .str ("%" ++ searchParams.Query ++ "%")] ∧
      ∀ t, (c.eval t = some true ↔ substringMatch searchParams.Query t = true)) ∧
    ∃ all, MySQLRepository.List searchRows
        { searchParams with Query := "", Limit := searchRows.length } = .ok all ∧
      MySQLRepository.List searchRows searchParams =
        .ok ((all.filter (substringMatch searchParams.Query)).take searchParams.Limit.toNat)) ∧
    MySQLRepository.List searchRows searchParams =
      .ok [mkTenant 1 "id-1" (some "tenant-a") 1, mkTenant 3 "id-3" (some "tenant-b") 3] :=
  ⟨⟨search_plain, by decide, search_wellFormed, by decide⟩,
    search_filter searchRows searchParams search_plain (by decide) search_wellFormed (by decide),
    rfl⟩

/-- C9 as stated fails for a term with a LIKE character: the term `_` is TRUE
of the row with tenantId a and name b, which is returned, though `_` is a
substring of neither. -/
theorem search_filter_wildcard :
    (∃ c, searchConds wildcardParams = [c] ∧
      c.eval (mkTenant 1 "a" (some "b") 1) = some true) ∧
    substringMatch wildcardParams.Query (mkTenant 1 "a" (some "b") 1) = false ∧
    MySQLRepository.List [mkTenant 1 "a" (some "b") 1] wildcardParams =
      .ok [mkTenant 1 "a" (some "b") 1] :=
  ⟨⟨_, rfl, by decide⟩, by decide, rfl⟩

/-! ## Cursor ids, sort field and both cursors -/

/-- C3: with BeforeId c and no BeforeValue (AfterId empty), `List` appends
`tenantId < ?` and binds the placeholder to AfterId, the empty string, not to
BeforeId; over the rows a, b, c, d the page is empty, though a and b precede
c (the paired branch, which binds BeforeId, returns them). -/
theorem list_before_idOnly_binds_afterId :
    listQuery backIdOnlyParams =
      (selectHead ++ " AND tenantId < ? ORDER BY tenantId ASC LIMIT ?", [.str "", .int 10]) ∧
    beforeConds backIdOnlyParams = [.cmp "tenantId" .lt (.str backIdOnlyParams.AfterId)] ∧
    MySQLRepository.List fourRows backIdOnlyParams = .ok [] ∧
    MySQLRepository.List fourRows { backIdOnlyParams with BeforeValue := some (.str "c") } =
      .ok [mkTenant 2 "a" (some "n1") 1, mkTenant 4 "b" (some "n2") 2] :=
  ⟨rfl, rfl, rfl, rfl⟩

theorem list_never_invalidParameter (db : Tenants) (p : ListParams) (param msg : String) :
    MySQLRepository.List db p ≠ .error (.invalidParameter param msg) := by
  unfold MySQLRepository.List
  cases h : DB.SelectContext db (listPlan p) with
  | ok rows => simp
  | error e => cases e <;> simp

/-- C4 as stated fails: a SortBy that is no column is written into the query
text, the statement goes to the store, and the store's rejection comes back as
an internal error. -/
theorem list_unknown_sortBy_not_rejected :
    (listQuery bogusParams).1 = selectHead ++ " ORDER BY bogus ASC, tenantId ASC LIMIT ?" ∧
    MySQLRepository.List scenarioRows bogusParams =
      .error (.internal "Unable to list tenants") :=
  ⟨rfl, rfl⟩

/-- C4 (amended): `List` checks SortBy against no allow-list: for every
request the SortBy string stands in the query text right after ` ORDER BY `,
the statement is handed to the store, and `List` never returns an
InvalidParameterError. -/
theorem list_sortBy_interpolated (db : Tenants) (p : ListParams) :
    (∃ pre post, (listQuery p).1 = pre ++ " ORDER BY " ++ p.SortBy ++ post) ∧
    (listQuery p = ((listPlan p).text, (listPlan p).args)) ∧
    (∀ param msg, MySQLRepository.List db p ≠ .error (.invalidParameter param msg)) := by
  refine ⟨?_, listQuery_eq_listPlan p, list_never_invalidParameter db p⟩
  unfold listQuery listOrder
  by_cases hs : p.SortBy = "tenantId"
  · refine ⟨(listWhere p).1, " " ++ p.SortOrder ++ " LIMIT ?", ?_⟩
    simp only [hs, ne_eq, not_true_eq_false, if_false]
    apply String.ext
    simp only [String.data_append, List.append_assoc]
    rfl
  · refine ⟨(listWhere p).1, " " ++ p.SortOrder ++ ", tenantId " ++ p.SortOrder ++ " LIMIT ?", ?_⟩
    simp only [hs, ne_eq, not_false_eq_true, if_true, String.append_assoc]

/-- C5 as stated fails: with both cursors (after a, before d) over the rows a,
b, c, d the query is run and returns b and c; no input error is raised. -/
theorem list_both_cursors_not_rejected :
    MySQLRepository.List fourRows bothCursorsParams =
      .ok [mkTenant 4 "b" (some "n2") 2, mkTenant 1 "c" (some "n3") 3] := rfl

theorem afterConds_length (p : ListParams) (h : p.AfterId ≠ "") : (afterConds p).length = 1 := by
  unfold afterConds
  cases p.AfterValue <;> by_cases ho : p.SortOrder = SortOrderAsc <;> simp [h, ho]

theorem beforeConds_length (p : ListParams) (h : p.BeforeId ≠ "") :
    (beforeConds p).length = 1 := by
  unfold beforeConds
  cases p.BeforeValue <;> by_cases ho : p.SortOrder = SortOrderAsc <;> simp [h, ho]

/-- C5 (amended): when both AfterId and BeforeId are given, `List` raises no
input error: it appends one predicate for each cursor, both joined by AND to
the WHERE clause, runs the query, and every row it returns satisfies both
predicates. -/
theorem list_both_cursors_anded (db : Tenants) (p : ListParams) (ha : p.AfterId ≠ "")
    (hb : p.BeforeId ≠ "") :
    (afterConds p).length = 1 ∧ (beforeConds p).length = 1 ∧
    (listWhere p).1 = selectHead ++ condsText (searchConds p) ++ condsText (afterConds p)
      ++ condsText (beforeConds p) ∧
    (∀ param msg, MySQLRepository.List db p ≠ .error (.invalidParameter param msg)) ∧
    ∀ rows, MySQLRepository.List db p = .ok rows →
      ∀ t ∈ rows, condsHold (afterConds p) t = true ∧ condsHold (beforeConds p) t = true := by
  refine ⟨afterConds_length p ha, beforeConds_length p hb, ?_, list_never_invalidParameter db p,
    ?_⟩
  · rw [listWhere_eq]
    simp only [listPlan, condsText_append, String.append_assoc]
  · intro rows h t ht
    obtain ⟨keys, _, _, hrows⟩ := list_ok_inv db p rows h
    rw [hrows] at ht
    have hs : t ∈ db.filter (passes (listPlan p).conds) :=
      (List.perm_insertionSort _ _).mem_iff.mp (List.mem_of_mem_take ht)
    have hf := (List.mem_filter.mp hs).2
    simp only [passes, listPlan, List.all_append, Bool.and_eq_true] at hf
    exact ⟨hf.2.1.2, hf.2.2⟩

theorem list_both_cursors_anded_witness :
    (bothCursorsParams.AfterId ≠ "" ∧ bothCursorsParams.BeforeId ≠ "") ∧
    ((afterConds bothCursorsParams).length = 1 ∧ (beforeConds bothCursorsParams).length = 1 ∧
    (listWhere bothCursorsParams).1 = selectHead ++ condsText (searchConds bothCursorsParams)
      ++ condsText (afterConds bothCursorsParams) ++ condsText (beforeConds bothCursorsParams) ∧
    (∀ param msg,
      MySQLRepository.List fourRows bothCursorsParams ≠ .error (.invalidParameter param msg)) ∧
    ∀ rows, MySQLRepository.List fourRows bothCursorsParams = .ok rows →
      ∀ t ∈ rows, condsHold (afterConds bothCursorsParams) t = true ∧
        condsHold (beforeConds bothCursorsParams) t = true) :=
  ⟨⟨by decide, by decide⟩,
    list_both_cursors_anded fourRows bothCursorsParams (by decide) (by decide)⟩

/-! ## Single-row operations -/

theorem map_update_of_none (db : Tenants) (sel : Tenant → Bool) (set : Tenant → Tenant)
    (h : ∀ t ∈ db, sel t = false) : db.map (fun t => if sel t then set t else t) = db := by
  induction db with
  | nil => rfl
  | cons a l ih =>
    have ha : sel a = false := h a (List.mem_cons_self _ _)
    simp only [List.map_cons, ha, Bool.false_eq_true, if_false,
      ih (fun t ht => h t (List.mem_cons_of_mem _ ht))]

theorem sel_false_of_noLive (db : Tenants) (x : String)
    (h : ∀ t ∈ db, t.tenantId = x → t.live = false) :
    ∀ t ∈ db, (decide (t.tenantId = x) && t.live) = false := by
  intro t ht
  by_cases hx : t.tenantId = x
  · simp [hx, h t ht hx]
  · simp [hx]

theorem getByTenantId_noLive (db : Tenants) (x : String)
    (h : ∀ t ∈ db, t.tenantId = x → t.live = false) :
    MySQLRepository.GetByTenantId db x = .error (.recordNotFound "Tenant" x) := by
  have hf : db.find? (fun t => decide (t.tenantId = x) && t.live) = none := by
    rw [List.find?_eq_none]
    intro t ht
    simp [sel_false_of_noLive db x h t ht]
  simp only [MySQLRepository.GetByTenantId, DB.GetContext, hf]

theorem delete_store (db : Tenants) (now : Int) (x : String) :
    (MySQLRepository.DeleteByTenantId db now x).1 =
      db.map (fun t => if (decide (t.tenantId = x) && t.live) then
        { t with deletedAt := some now } else t) := rfl

theorem delete_noLive (db : Tenants) (now : Int) (x : String) :
    ∀ t ∈ (MySQLRepository.DeleteByTenantId db now x).1, t.tenantId = x → t.live = false := by
  intro t ht hx
  rw [delete_store, List.mem_map] at ht
  obtain ⟨s, _, hst⟩ := ht
  by_cases hs : (decide (s.tenantId = x) && s.live) = true
  · rw [if_pos hs] at hst
    rw [← hst]; rfl
  · rw [if_neg hs] at hst
    subst hst
    simpa [hx] using hs

/-- C6 (amended): when no live row has the tenantId, GetByTenantId returns the
record-not-found error, UpdateByTenantId returns no error, and all three
operations leave the store as it is; when a live row has the tenantId,
DeleteByTenantId returns no error and leaves no live row with that tenantId,
so that GetByTenantId then returns record-not-found and a second
DeleteByTenantId changes nothing. -/
theorem single_row_no_live (db db0 : Tenants) (x : String) (model : Tenant) (now now0 now1 : Int)
    (h : ∀ t ∈ db, t.tenantId = x → t.live = false)
    (h0 : ∃ t ∈ db0, t.tenantId = x ∧ t.live = true) :
    MySQLRepository.GetByTenantId db x = .error (.recordNotFound "Tenant" x) ∧
    MySQLRepository.UpdateByTenantId db x model = (db, none) ∧
    (∀ res typ key, updateErr model res ≠ some (.recordNotFound typ key)) ∧
    (MySQLRepository.DeleteByTenantId db now x).1 = db ∧
    (MySQLRepository.DeleteByTenantId db0 now0 x).2 = none ∧
    (∃ t ∈ (MySQLRepository.DeleteByTenantId db0 now0 x).1,
      t.tenantId = x ∧ t.deletedAt = some now0) ∧
    MySQLRepository.GetByTenantId (MySQLRepository.DeleteByTenantId db0 now0 x).1 x =
      .error (.recordNotFound "Tenant" x) ∧
    (MySQLRepository.DeleteByTenantId (MySQLRepository.DeleteByTenantId db0 now0 x).1 now1 x).1 =
      (MySQLRepository.DeleteByTenantId db0 now0 x).1 := by
  have hsel := sel_false_of_noLive db x h
  have hsel1 := sel_false_of_noLive _ x (delete_noLive db0 now0 x)
  refine ⟨getByTenantId_noLive db x h, ?_, ?_, ?_, rfl, ?_,
    getByTenantId_noLive _ x (delete_noLive db0 now0 x), ?_⟩
  · simp only [MySQLRepository.UpdateByTenantId, DB.ExecContext, map_update_of_none db _ _ hsel,
      updateErr]
  · intro res typ key
    cases res <;> simp [updateErr]
  · rw [delete_store, map_update_of_none db _ _ hsel]
  · obtain ⟨t, ht, hx, hl⟩ := h0
    refine ⟨{ t with deletedAt := some now0 }, ?_, hx, rfl⟩
    rw [delete_store, List.mem_map]
    exact ⟨t, ht, by simp [hx, hl]⟩
  · rw [delete_store _ now1, map_update_of_none _ _ _ hsel1]

theorem single_row_no_live_witness :
    ((∀ t ∈ deletedRows, t.tenantId = "x" → t.live = false) ∧
      (∃ t ∈ liveXRows, t.tenantId = "x" ∧ t.live = true)) ∧
    MySQLRepository.GetByTenantId deletedRows "x" = .error (.recordNotFound "Tenant" "x") ∧
    MySQLRepository.UpdateByTenantId deletedRows "x" (mkTenant 1 "x" (some "new") 1) =
      (deletedRows, none) ∧
    (MySQLRepository.DeleteByTenantId deletedRows 7 "x").1 = deletedRows ∧
    (MySQLRepository.DeleteByTenantId liveXRows 8 "x").2 = none ∧
    MySQLRepository.GetByTenantId (MySQLRepository.DeleteByTenantId liveXRows 8 "x").1 "x" =
      .error (.recordNotFound "Tenant" "x") :=
  have w := single_row_no_live deletedRows liveXRows "x" (mkTenant 1 "x" (some "new") 1) 7 8 9
    (by decide) (by decide)
  ⟨⟨by decide, by decide⟩, w.1, w.2.1, w.2.2.2.1, w.2.2.2.2.1, w.2.2.2.2.2.2.1⟩

/-- C6 as stated fails: with no live row for tenantId x, UpdateByTenantId and
DeleteByTenantId return no error, and the second of two DeleteByTenantId calls
in a row returns no error either; whatever `ExecContext` answers,
UpdateByTenantId does not turn it into record-not-found. -/
theorem update_delete_no_notFound :
    (MySQLRepository.UpdateByTenantId deletedRows "x" (mkTenant 1 "x" (some "new") 1)).2 = none ∧
    (∀ res, updateErr (mkTenant 1 "x" (some "new") 1) res ≠ some (.recordNotFound "Tenant" "x")) ∧
    (MySQLRepository.DeleteByTenantId deletedRows 7 "x").2 = none ∧
    (MySQLRepository.DeleteByTenantId (MySQLRepository.DeleteByTenantId liveXRows 8 "x").1 9
      "x").2 = none :=
  ⟨rfl, fun res => by cases res <;> simp [updateErr], rfl, rfl⟩

theorem cursor_pair_predicate_witness :
    (pagedParams.AfterId ≠ "" ∧ pagedParams.AfterValue = some (.str "tenant-b") ∧
      bothCursorsParams.BeforeId ≠ "" ∧ bothCursorsParams.BeforeValue = some (.str "d")) ∧
    ((∃ c, afterConds pagedParams = [c] ∧
      c.args = [.str "tenant-b", .str pagedParams.AfterId, .str "tenant-b"] ∧
      (c.eval (mkTenant 1 "tenant-a" (some "tenant-a") 1) = some true ↔
        if pagedParams.SortOrder = SortOrderAsc then
          PairAbove pagedParams.SortBy (mkTenant 1 "tenant-a" (some "tenant-a") 1)
            (.str "tenant-b") pagedParams.AfterId
        else PairBelow pagedParams.SortBy (mkTenant 1 "tenant-a" (some "tenant-a") 1)
            (.str "tenant-b") pagedParams.AfterId)) ∧
    (∃ c, beforeConds bothCursorsParams = [c] ∧
      c.args = [.str "d", .str bothCursorsParams.BeforeId, .str "d"] ∧
      (c.eval (mkTenant 1 "tenant-a" (some "tenant-a") 1) = some true ↔
        if bothCursorsParams.SortOrder = SortOrderAsc then
          PairBelow bothCursorsParams.SortBy (mkTenant 1 "tenant-a" (some "tenant-a") 1)
            (.str "d") bothCursorsParams.BeforeId
        else PairAbove bothCursorsParams.SortBy (mkTenant 1 "tenant-a" (some "tenant-a") 1)
            (.str "d") bothCursorsParams.BeforeId))) :=
  ⟨⟨by decide, rfl, by decide, rfl⟩,
    cursor_pair_predicate pagedParams bothCursorsParams (mkTenant 1 "tenant-a" (some "tenant-a") 1)
      (.str "tenant-b") (.str "d") (by decide) rfl (by decide) rfl⟩
